import Mathlib

/-!
Shallow embedding of the notes access-control and cache subsystem of the
Notes-BE repository (NestJS/TypeScript), centred on
`src/src/notes/notes.service.ts` together with the `Note` and `User`
entities.  Stateful service methods become explicit state-passing
functions in a small state-and-exception monad; every cache interaction
additionally emits an event so that cache-protocol properties (TTL,
invalidation order) are visible in the model.
-/

namespace NotesBE

/-- `User` entity (`user.entity.ts`): id, unique email, password hash,
username, role (default `"user"`); the `notes` back-relation is a derived
query and is not stored on the user. -/
structure User where
  id : Nat
  email : String
  password : String
  username : String
  role : String
deriving DecidableEq, Repr

/-- Owner/sharee shape produced by `NotesService.formatNote`: only
id, email, username and role are exposed. -/
structure FormattedUser where
  id : Nat
  email : String
  username : String
  role : String
deriving DecidableEq, Repr

/-- `Note` entity (`note.entity.ts`): generated id, title, text content,
many-to-one owner, many-to-many `sharedWith`, and `timestamp` columns
`createdAt` (default CURRENT_TIMESTAMP) and `updatedAt` (default
CURRENT_TIMESTAMP, onUpdate CURRENT_TIMESTAMP).  Timestamps are modelled
as natural numbers. -/
structure Note where
  id : Nat
  title : String
  content : String
  owner : User
  sharedWith : List User
  createdAt : Nat
  updatedAt : Nat
deriving DecidableEq, Repr

/-- Return shape of the service (`formatted-note.interface.ts` as used by
`formatNote`). -/
structure FormattedNote where
  id : Nat
  title : String
  content : String
  createdAt : Nat
  updatedAt : Nat
  owner : FormattedUser
  sharedWith : List FormattedUser
deriving DecidableEq, Repr

/-- Modelled from the spec: `dto/create-note.dto.ts` is not among the
source files; spec section 6 gives the request body of POST /notes and
PUT /notes/:id as `{title, content}`. -/
structure CreateNoteDto where
  title : String
  content : String
deriving DecidableEq, Repr

/-- Cache keys.  The source builds string keys with
`getCacheKey(type, id) = "note:" + type + ":" + id` for the three
namespaces `'single'` (by note id), `'user'` (owned lists, by user id)
and `'shared'` (shared lists, by user id); since the numeric rendering is
injective and the namespace tags differ, the string keys are represented
injectively by this inductive. -/
inductive CacheKey
  | single (noteId : Nat)
  | user (userId : Nat)
  | shared (userId : Nat)
deriving DecidableEq, Repr

/-- A cached value: either one formatted note (the `single` namespace) or
a list of formatted notes (the `user` and `shared` namespaces). -/
inductive CacheValue
  | note (n : FormattedNote)
  | list (l : List FormattedNote)
deriving DecidableEq, Repr

/-- Observable cache interactions; `set` records the ttl argument in
milliseconds, as passed to `cacheManager.set`. -/
inductive CacheEvent
  | get (key : CacheKey)
  | set (key : CacheKey) (v : CacheValue) (ttlMs : Nat)
  | del (key : CacheKey)
deriving DecidableEq, Repr

/-- Failure outcomes: `NotFoundException`, `ForbiddenException`, and a
rejected promise coming from the cache layer (the service has no
try/catch around cache calls, so such a rejection propagates). -/
inductive Err
  | notFound (msg : String)
  | forbidden (msg : String)
  | cacheFailure
deriving DecidableEq, Repr

/-- Whole-system state: the user table, the note table (with relations
inlined), the cache contents, the store's next generated note id, and
the database clock used for timestamp columns. -/
structure SysState where
  users : List User
  notes : List Note
  cache : List (CacheKey × CacheValue)
  nextId : Nat
  clock : Nat
deriving DecidableEq, Repr

/-- Behaviour of the cache client: when `failing` is true every cache
call rejects (models a cache-layer outage). -/
structure CacheEnv where
  failing : Bool
deriving DecidableEq, Repr

/-- The cache client behaving normally. -/
def okEnv : CacheEnv := ⟨false⟩

/-- State-and-exception monad with a cache-event trace.  Exceptions do
not roll back state: side effects performed before a throw persist, as
they do for JavaScript promises. -/
def M (α : Type) : Type := SysState → Except Err α × SysState × List CacheEvent

/-- Monadic unit for `M`. -/
def mPure (a : α) : M α := fun s => (Except.ok a, s, [])

/-- Monadic sequencing for `M`: traces concatenate, errors short-circuit
but keep the state reached so far. -/
def mBind (x : M α) (f : α → M β) : M β := fun s =>
  match x s with
  | (Except.ok a, s1, t1) =>
      match f a s1 with
      | (r, s2, t2) => (r, s2, t1 ++ t2)
  | (Except.error e, s1, t1) => (Except.error e, s1, t1)

instance : Monad M where
  pure := mPure
  bind := mBind

/-- Throwing an exception. -/
def throwErr (e : Err) : M α := fun s => (Except.error e, s, [])

/-- Association-list lookup in the cache. -/
def lookupKey (c : List (CacheKey × CacheValue)) (k : CacheKey) : Option CacheValue :=
  (c.find? (fun p => p.1 == k)).map Prod.snd

/-- Insert/overwrite one cache entry. -/
def setKey (c : List (CacheKey × CacheValue)) (k : CacheKey) (v : CacheValue) :
    List (CacheKey × CacheValue) :=
  (k, v) :: c.filter (fun p => p.1 != k)

/-- `cacheManager.get(key)`. -/
def cacheGet (env : CacheEnv) (key : CacheKey) : M (Option CacheValue) := fun s =>
  if env.failing then (Except.error Err.cacheFailure, s, [CacheEvent.get key])
  else (Except.ok (lookupKey s.cache key), s, [CacheEvent.get key])

/-- `cacheManager.set(key, value, ttlMs)`. -/
def cacheSet (env : CacheEnv) (key : CacheKey) (v : CacheValue) (ttlMs : Nat) : M Unit := fun s =>
  if env.failing then (Except.error Err.cacheFailure, s, [CacheEvent.set key v ttlMs])
  else (Except.ok (), { s with cache := setKey s.cache key v }, [CacheEvent.set key v ttlMs])

/-- `cacheManager.del(key)`. -/
def cacheDel (env : CacheEnv) (key : CacheKey) : M Unit := fun s =>
  if env.failing then (Except.error Err.cacheFailure, s, [CacheEvent.del key])
  else (Except.ok (), { s with cache := s.cache.filter (fun p => p.1 != key) }, [CacheEvent.del key])

/-- `usersRepository.findOne({where: {id}})`. -/
def usersFindOne (id : Nat) : M (Option User) := fun s =>
  (Except.ok (s.users.find? (fun u => u.id == id)), s, [])

/-- `notesRepository.findOne({where: {id}, relations: ['owner','sharedWith']})`. -/
def notesFindOneById (id : Nat) : M (Option Note) := fun s =>
  (Except.ok (s.notes.find? (fun n => n.id == id)), s, [])

/-- `notesRepository.find({relations: ['owner','sharedWith']})`. -/
def notesFindAll : M (List Note) := fun s => (Except.ok s.notes, s, [])

/-- `notesRepository.find({where: {owner: {id: userId}}, ...})`. -/
def notesFindByOwner (userId : Nat) : M (List Note) := fun s =>
  (Except.ok (s.notes.filter (fun n => n.owner.id == userId)), s, [])

/-- Query-builder join in `findSharedWithUser`: notes whose `sharedWith`
contains the user. -/
def notesFindBySharee (userId : Nat) : M (List Note) := fun s =>
  (Except.ok (s.notes.filter (fun n => n.sharedWith.any (fun u => u.id == userId))), s, [])

/-- `notesRepository.create` + `save` for a brand-new note: the store
assigns the next id and sets both timestamp columns to the current
database time; a new note has no sharees. -/
def notesSaveNew (title content : String) (owner : User) : M Note := fun s =>
  let note : Note :=
    { id := s.nextId, title := title, content := content, owner := owner,
      sharedWith := [], createdAt := s.clock, updatedAt := s.clock }
  (Except.ok note, { s with notes := s.notes ++ [note], nextId := s.nextId + 1 }, [])

/-- `notesRepository.save` on an entity that already has an id: replaces
the stored row with that id. -/
def notesSaveExisting (n : Note) : M Note := fun s =>
  (Except.ok n, { s with notes := s.notes.map (fun m => if m.id == n.id then n else m) }, [])

/-- `notesRepository.remove`. -/
def notesRemove (id : Nat) : M Unit := fun s =>
  (Except.ok (), { s with notes := s.notes.filter (fun n => n.id != id) }, [])

/-- Current database time (used for timestamp columns). -/
def getClock : M Nat := fun s => (Except.ok s.clock, s, [])

/-- TTL passed by the service to every `cacheManager.set`:
`60 * 60 * 1000` milliseconds (the source comments it as 1 hour). -/
def oneHourMs : Nat := 60 * 60 * 1000

/-- `NotesService.clearUserCache(userId)`: delete the owned-list entry
then the shared-list entry of one user. -/
def clearUserCache (env : CacheEnv) (userId : Nat) : M Unit := do
  cacheDel env (CacheKey.user userId)
  cacheDel env (CacheKey.shared userId)

/-- `NotesService.formatNote`: project the owner and every sharee to
id/email/username/role.  (When `sharedWith` is not loaded the source
substitutes `[]`; relations are always inlined here.) -/
def formatNote (note : Note) : FormattedNote :=
  { id := note.id, title := note.title, content := note.content,
    createdAt := note.createdAt, updatedAt := note.updatedAt,
    owner := { id := note.owner.id, email := note.owner.email,
               username := note.owner.username, role := note.owner.role },
    sharedWith := note.sharedWith.map (fun user =>
      { id := user.id, email := user.email,
        username := user.username, role := user.role }) }

/-- `NotesService.create(userId, dto)`. -/
def create (env : CacheEnv) (userId : Nat) (dto : CreateNoteDto) : M FormattedNote := do
  let owner? ← usersFindOne userId
  match owner? with
  | none => throwErr (Err.notFound "User not found")
  | some owner => do
      let savedNote ← notesSaveNew dto.title dto.content owner
      clearUserCache env userId
      pure (formatNote savedNote)

/-- `NotesService.findAllByUser(userId, isAdmin)` (listOwned).  A cached
value of the wrong shape at a list key cannot arise from the service's
own writes and is treated as a miss. -/
def findAllByUser (env : CacheEnv) (userId : Nat) (isAdmin : Bool := false) :
    M (List FormattedNote) := do
  if isAdmin then
    let notes ← notesFindAll
    pure (notes.map formatNote)
  else
    let cached ← cacheGet env (CacheKey.user userId)
    match cached with
    | some (CacheValue.list l) => pure l
    | _ => do
        let notes ← notesFindByOwner userId
        let formattedNotes := notes.map formatNote
        cacheSet env (CacheKey.user userId) (CacheValue.list formattedNotes) oneHourMs
        pure formattedNotes

/-- `NotesService.findSharedWithUser(userId, isAdmin)` (listShared). -/
def findSharedWithUser (env : CacheEnv) (userId : Nat) (isAdmin : Bool := false) :
    M (List FormattedNote) := do
  if isAdmin then
    let notes ← notesFindAll
    pure (notes.map formatNote)
  else
    let cached ← cacheGet env (CacheKey.shared userId)
    match cached with
    | some (CacheValue.list l) => pure l
    | _ => do
        let notes ← notesFindBySharee userId
        let formattedNotes := notes.map formatNote
        cacheSet env (CacheKey.shared userId) (CacheValue.list formattedNotes) oneHourMs
        pure formattedNotes

/-- `NotesService.findOne(id, userId, isAdmin)` (getOne): cache-aside
read with the authorization check evaluated on whichever snapshot is
served (cached or loaded). -/
def findOne (env : CacheEnv) (id userId : Nat) (isAdmin : Bool := false) : M FormattedNote := do
  let cached ← cacheGet env (CacheKey.single id)
  match cached with
  | some (CacheValue.note note) =>
      if !isAdmin && note.owner.id != userId &&
          !(note.sharedWith.any (fun user => user.id == userId)) then
        throwErr (Err.forbidden "Access denied")
      else
        pure note
  | _ => do
      let note? ← notesFindOneById id
      match note? with
      | none => throwErr (Err.notFound "Note not found")
      | some note =>
          if !isAdmin && note.owner.id != userId &&
              !(note.sharedWith.any (fun user => user.id == userId)) then
            throwErr (Err.forbidden "Access denied")
          else do
            let formattedNote := formatNote note
            cacheSet env (CacheKey.single id) (CacheValue.note formattedNote) oneHourMs
            pure formattedNote

/-- `NotesService.update(id, userId, dto, isAdmin)`: read-then-authorize
via `findOne`, owner/admin write check, apply title/content (the store
refreshes `updatedAt` on the row update), then invalidate the single
entry, the acting user's entries, and each sharee's entries. -/
def update (env : CacheEnv) (id userId : Nat) (dto : CreateNoteDto) (isAdmin : Bool := false) :
    M FormattedNote := do
  let note ← findOne env id userId isAdmin
  if !isAdmin && note.owner.id != userId then
    throwErr (Err.forbidden "Only the owner can update the note")
  else do
    let existing? ← notesFindOneById id
    match existing? with
    | none => throwErr (Err.notFound "Note not found")
    | some existingNote => do
        let now ← getClock
        let updatedNote ← notesSaveExisting
          { existingNote with title := dto.title, content := dto.content, updatedAt := now }
        cacheDel env (CacheKey.single id)
        clearUserCache env userId
        note.sharedWith.forM (fun user => clearUserCache env user.id)
        pure (formatNote updatedNote)

/-- `NotesService.remove(id, userId, isAdmin)`: read-then-authorize,
owner/admin delete check, invalidate caches, then delete the row
(invalidate-then-delete ordering); returns `{success: true}`. -/
def remove (env : CacheEnv) (id userId : Nat) (isAdmin : Bool := false) : M Bool := do
  let formattedNote ← findOne env id userId isAdmin
  if !isAdmin && formattedNote.owner.id != userId then
    throwErr (Err.forbidden "Only the owner can delete the note")
  else do
    cacheDel env (CacheKey.single id)
    clearUserCache env userId
    formattedNote.sharedWith.forM (fun user => clearUserCache env user.id)
    let noteEntity? ← notesFindOneById id
    match noteEntity? with
    | none => throwErr (Err.notFound "Note with this ID not found")
    | some _ => do
        notesRemove id
        pure true

/-- `NotesService.share(noteId, ownerId, targetUserId)`: the read step
calls `findOne` without passing a role, so `isAdmin` takes its default
`false`; then the explicit owner check, target-user resolution, append
to `sharedWith` (saving relation changes leaves the row's timestamp
columns untouched), and invalidation of the single entry and the
target's entries. -/
def share (env : CacheEnv) (noteId ownerId targetUserId : Nat) : M FormattedNote := do
  let note ← findOne env noteId ownerId
  if note.owner.id != ownerId then
    throwErr (Err.forbidden "Only the owner can share the note")
  else do
    let existing? ← notesFindOneById noteId
    match existing? with
    | none => throwErr (Err.notFound "Note not found")
    | some existingNote => do
        let targetUser? ← usersFindOne targetUserId
        match targetUser? with
        | none => throwErr (Err.notFound "Target user not found")
        | some targetUser => do
            let updatedNote ← notesSaveExisting
              { existingNote with sharedWith := existingNote.sharedWith ++ [targetUser] }
            cacheDel env (CacheKey.single noteId)
            clearUserCache env targetUserId
            pure (formatNote updatedNote)

/-! ### Derived notions used by the statements -/

/-- The snapshot `findOne` serves for an id: the cached single entry when
one of note shape is present, otherwise the store row (formatted). -/
def servedSingle (st : SysState) (id : Nat) : Option FormattedNote :=
  match lookupKey st.cache (CacheKey.single id) with
  | some (CacheValue.note fn) => some fn
  | _ => (st.notes.find? (fun n => n.id == id)).map formatNote

/-- Cache-invalidation events of a trace. -/
def isDel : CacheEvent → Bool
  | CacheEvent.del _ => true
  | _ => false

/-- The two invalidation events `clearUserCache(uid)` issues, in order. -/
def clearDels (uid : Nat) : List CacheEvent :=
  [CacheEvent.del (CacheKey.user uid), CacheEvent.del (CacheKey.shared uid)]

/-- Every cache write in the trace carries a ttl of 3600 seconds
(3600000 milliseconds). -/
def ttlOk (tr : List CacheEvent) : Prop :=
  ∀ k v t, CacheEvent.set k v t ∈ tr → t = 1000 * 3600

/-- Replace a user's password (used to state that outputs are
independent of passwords). -/
def scrubUser (f : Nat → String) (u : User) : User := { u with password := f u.id }

/-- Replace the password of every user embedded in a note. -/
def scrubNote (f : Nat → String) (n : Note) : Note :=
  { n with owner := scrubUser f n.owner, sharedWith := n.sharedWith.map (scrubUser f) }

/-- Replace every password stored anywhere in the system state (cache
snapshots contain no passwords and are untouched). -/
def scrubState (f : Nat → String) (st : SysState) : SysState :=
  { st with users := st.users.map (scrubUser f), notes := st.notes.map (scrubNote f) }

/-- The system invariant used for reachability arguments: a single-entry
cache key is only populated for ids present in the store, and timestamp
columns satisfy `createdAt ≤ updatedAt ≤ clock`. -/
def GoodState (st : SysState) : Prop :=
  (∀ i v, lookupKey st.cache (CacheKey.single i) = some v → ∃ n ∈ st.notes, n.id = i) ∧
  (∀ n ∈ st.notes, n.createdAt ≤ n.updatedAt ∧ n.updatedAt ≤ st.clock)

/-- A step that leaves the store and clock alone and can only remove
single-entry cache knowledge. -/
def Shrinks (s s' : SysState) : Prop :=
  s'.notes = s.notes ∧ s'.clock = s.clock ∧
  ∀ j v, lookupKey s'.cache (CacheKey.single j) = some v →
    lookupKey s.cache (CacheKey.single j) = some v

/-- A step that leaves the store, the clock and every single-entry cache
lookup exactly as they were (cache changes confined to list keys). -/
def KeepsSingles (s s' : SysState) : Prop :=
  s'.notes = s.notes ∧ s'.clock = s.clock ∧
  ∀ j, lookupKey s'.cache (CacheKey.single j) = lookupKey s.cache (CacheKey.single j)

/-- States reachable from a fresh deployment (empty cache, any store
content with well-formed timestamps) by clock advance and the service
operations, under any cache-client behaviour. -/
inductive Reachable : SysState → Prop
  | base (st : SysState) (hc : st.cache = [])
      (ht : ∀ n ∈ st.notes, n.createdAt ≤ n.updatedAt ∧ n.updatedAt ≤ st.clock) :
      Reachable st
  | tick (st : SysState) (d : Nat) : Reachable st → Reachable { st with clock := st.clock + d }
  | opCreate (env : CacheEnv) (uid : Nat) (dto : CreateNoteDto) (st : SysState) :
      Reachable st → Reachable (create env uid dto st).2.1
  | opListOwned (env : CacheEnv) (uid : Nat) (a : Bool) (st : SysState) :
      Reachable st → Reachable (findAllByUser env uid a st).2.1
  | opListShared (env : CacheEnv) (uid : Nat) (a : Bool) (st : SysState) :
      Reachable st → Reachable (findSharedWithUser env uid a st).2.1
  | opGetOne (env : CacheEnv) (i uid : Nat) (a : Bool) (st : SysState) :
      Reachable st → Reachable (findOne env i uid a st).2.1
  | opUpdate (env : CacheEnv) (i uid : Nat) (dto : CreateNoteDto) (a : Bool) (st : SysState) :
      Reachable st → Reachable (update env i uid dto a st).2.1
  | opRemove (env : CacheEnv) (i uid : Nat) (a : Bool) (st : SysState) :
      Reachable st → Reachable (remove env i uid a st).2.1
  | opShare (env : CacheEnv) (i o t : Nat) (st : SysState) :
      Reachable st → Reachable (share env i o t st).2.1

/-! ### Concrete fixtures for witnesses and counterexamples -/

/-- Fixture: a regular user who owns the fixture note. -/
def alice : User := ⟨1, "alice@example.com", "pw-alice", "alice", "user"⟩

/-- Fixture: a regular user the note is shared with. -/
def bob : User := ⟨2, "bob@example.com", "pw-bob", "bob", "user"⟩

/-- Fixture: an administrator who neither owns the note nor appears in
its `sharedWith`. -/
def carol : User := ⟨3, "carol@example.com", "pw-carol", "carol", "admin"⟩

/-- Fixture: a reader with no relationship to the note. -/
def dave : User := ⟨4, "dave@example.com", "pw-dave", "dave", "user"⟩

/-- Fixture note: owned by alice, shared with bob. -/
def note1 : Note := ⟨1, "T1", "Content1", alice, [bob], 10, 20⟩

/-- Fixture state: the four users, the one note, an empty cache. -/
def st0 : SysState := ⟨[alice, bob, carol, dave], [note1], [], 2, 100⟩

/-! ### Run lemmas for the monad -/

theorem bind_apply (x : M α) (f : α → M β) (s : SysState) :
    (x >>= f) s = mBind x f s := rfl

theorem pure_apply (a : α) (s : SysState) : (pure a : M α) s = (Except.ok a, s, []) := rfl

theorem formatNote_any_id (n : Note) (userId : Nat) :
    (formatNote n).sharedWith.any (fun u => u.id == userId)
      = n.sharedWith.any (fun user => user.id == userId) := by
  simp only [formatNote]
  induction n.sharedWith with
  | nil => rfl
  | cons a l ih => simp [List.any_cons, ih]

theorem guard_true (fn : FormattedNote) (userId : Nat)
    (howner : fn.owner.id ≠ userId)
    (hshared : ∀ u ∈ fn.sharedWith, u.id ≠ userId) :
    (!false && fn.owner.id != userId && !fn.sharedWith.any fun user => user.id == userId) = true := by
  simp [howner, List.any_eq_false]
  exact hshared

theorem lookupKey_cons (a : CacheKey × CacheValue) (c : List (CacheKey × CacheValue))
    (k' : CacheKey) :
    lookupKey (a :: c) k' = if a.1 = k' then some a.2 else lookupKey c k' := by
  unfold lookupKey
  by_cases h : a.1 = k'
  · rw [List.find?_cons_of_pos _ (by simp [h]), if_pos h]; rfl
  · rw [List.find?_cons_of_neg _ (by simp [h]), if_neg h]

theorem lookupKey_filter_del (c : List (CacheKey × CacheValue)) (k k' : CacheKey) :
    lookupKey (c.filter (fun p => p.1 != k)) k' = if k' = k then none else lookupKey c k' := by
  induction c with
  | nil => simp [lookupKey]
  | cons a c ih =>
      by_cases hak : a.1 = k
      · rw [List.filter_cons_of_neg (by simp [hak]), ih, lookupKey_cons]
        by_cases hk : k' = k
        · simp [hk]
        · rw [if_neg hk, if_neg hk, if_neg (fun h => hk (by rw [← h, hak]))]
      · rw [List.filter_cons_of_pos (by simp [hak]), lookupKey_cons, lookupKey_cons]
        by_cases hak' : a.1 = k'
        · have hk : ¬k' = k := fun h => hak (by rw [hak', h])
          simp [hak', hk]
        · rw [if_neg hak', ih]
          by_cases hk : k' = k <;> simp [hk, hak']

theorem lookupKey_setKey (c : List (CacheKey × CacheValue)) (k k' : CacheKey) (v : CacheValue) :
    lookupKey (setKey c k v) k' = if k' = k then some v else lookupKey c k' := by
  unfold setKey
  rw [lookupKey_cons]
  by_cases hk : k' = k
  · simp [hk]
  · rw [if_neg (fun h => hk h.symm), if_neg hk, lookupKey_filter_del, if_neg hk]

theorem findOne_hit_ok (st : SysState) (id userId : Nat) (isAdmin : Bool) (fn : FormattedNote)
    (hl : lookupKey st.cache (CacheKey.single id) = some (CacheValue.note fn))
    (hauth : (!isAdmin && fn.owner.id != userId &&
      !fn.sharedWith.any fun user => user.id == userId) = false) :
    findOne okEnv id userId isAdmin st
      = (Except.ok fn, st, [CacheEvent.get (CacheKey.single id)]) := by
  unfold findOne
  simp only [bind_apply, mBind, cacheGet, okEnv, Bool.false_eq_true, if_false, hl, hauth]
  rfl

theorem findOne_miss_ok (st : SysState) (id userId : Nat) (isAdmin : Bool) (n : Note)
    (hl : lookupKey st.cache (CacheKey.single id) = none)
    (hfind : st.notes.find? (fun m => m.id == id) = some n)
    (hauth : (!isAdmin && n.owner.id != userId &&
      !n.sharedWith.any fun user => user.id == userId) = false) :
    findOne okEnv id userId isAdmin st =
      (Except.ok (formatNote n),
       { st with cache := setKey st.cache (CacheKey.single id) (CacheValue.note (formatNote n)) },
       [CacheEvent.get (CacheKey.single id),
        CacheEvent.set (CacheKey.single id) (CacheValue.note (formatNote n)) oneHourMs]) := by
  unfold findOne
  simp only [bind_apply, mBind, cacheGet, okEnv, Bool.false_eq_true, if_false, hl,
    notesFindOneById, hfind, hauth, cacheSet]
  rfl

theorem findOne_miss_notFound (st : SysState) (id userId : Nat) (isAdmin : Bool)
    (hl : lookupKey st.cache (CacheKey.single id) = none)
    (hfind : st.notes.find? (fun m => m.id == id) = none) :
    findOne okEnv id userId isAdmin st =
      (Except.error (Err.notFound "Note not found"), st, [CacheEvent.get (CacheKey.single id)]) := by
  unfold findOne
  simp only [bind_apply, mBind, cacheGet, okEnv, Bool.false_eq_true, if_false, hl,
    notesFindOneById, hfind]
  rfl

/-- The read check refuses any non-admin actor who is neither the owner
nor a sharee of the snapshot served for the id, whether it came from the
cache or from the store. -/
theorem findOne_denied (st : SysState) (id userId : Nat)
    (fn : FormattedNote)
    (hserved : servedSingle st id = some fn)
    (howner : fn.owner.id ≠ userId)
    (hshared : ∀ u ∈ fn.sharedWith, u.id ≠ userId) :
    (findOne okEnv id userId false st).1 = Except.error (Err.forbidden "Access denied") := by
  unfold servedSingle at hserved
  unfold findOne
  simp only [bind_apply, mBind, cacheGet, okEnv, Bool.false_eq_true, if_false]
  cases hl : lookupKey st.cache (CacheKey.single id) with
  | some v =>
      cases v with
      | note n =>
          rw [hl] at hserved
          obtain rfl : n = fn := by injection hserved
          simp only [guard_true _ userId howner hshared, if_true]
          rfl
      | list l =>
          rw [hl] at hserved
          cases hfind : st.notes.find? (fun n => n.id == id) with
          | none => rw [hfind] at hserved; simp at hserved
          | some note =>
              rw [hfind] at hserved
              obtain rfl : formatNote note = fn := by injection hserved
              simp only [bind_apply, mBind, notesFindOneById, hfind]
              have hg : (!false && note.owner.id != userId &&
                  !note.sharedWith.any fun user => user.id == userId) = true := by
                have h1 := guard_true (formatNote note) userId howner hshared
                rw [formatNote_any_id] at h1
                exact h1
              simp only [hg, if_true]
              rfl
  | none =>
      rw [hl] at hserved
      cases hfind : st.notes.find? (fun n => n.id == id) with
      | none => rw [hfind] at hserved; simp at hserved
      | some note =>
          rw [hfind] at hserved
          obtain rfl : formatNote note = fn := by injection hserved
          simp only [bind_apply, mBind, notesFindOneById, hfind]
          have hg : (!false && note.owner.id != userId &&
              !note.sharedWith.any fun user => user.id == userId) = true := by
            have h1 := guard_true (formatNote note) userId howner hshared
            rw [formatNote_any_id] at h1
            exact h1
          simp only [hg, if_true]
          rfl

/-! ### C1 -/

/-- C1: for every existing note and every non-admin actor whose id is
neither the owner's id nor in `sharedWith` of the snapshot `findOne`
serves for that id — the cached single entry on a hit, the store row
otherwise — `findOne` fails with Forbidden; in particular a cache hit
never returns the snapshot without re-evaluating the read check against
the cached snapshot's owner and `sharedWith` fields. -/
theorem C1_getOne_forbidden_even_on_cache_hit (st : SysState) (id userId : Nat)
    (fn : FormattedNote)
    (hserved : servedSingle st id = some fn)
    (howner : fn.owner.id ≠ userId)
    (hshared : ∀ u ∈ fn.sharedWith, u.id ≠ userId) :
    (findOne okEnv id userId false st).1 = Except.error (Err.forbidden "Access denied") :=
  findOne_denied st id userId fn hserved howner hshared

/-- C1 witness: in a state whose single-entry cache holds the snapshot of
the fixture note (owner alice, shared with bob), the unrelated reader
dave is refused with Forbidden on a cache hit. -/
theorem C1_witness :
    servedSingle { st0 with cache := [(CacheKey.single 1, CacheValue.note (formatNote note1))] } 1
        = some (formatNote note1) ∧
    (formatNote note1).owner.id ≠ 4 ∧
    (∀ u ∈ (formatNote note1).sharedWith, u.id ≠ 4) ∧
    (findOne okEnv 1 4 false
        { st0 with cache := [(CacheKey.single 1, CacheValue.note (formatNote note1))] }).1
      = Except.error (Err.forbidden "Access denied") :=
  ⟨rfl, by decide, by decide,
    C1_getOne_forbidden_even_on_cache_hit _ 1 4 _ rfl (by decide) (by decide)⟩


theorem shrinks_refl (s : SysState) : Shrinks s s := ⟨rfl, rfl, fun _ _ h => h⟩

theorem shrinks_trans {s1 s2 s3 : SysState} (h1 : Shrinks s1 s2) (h2 : Shrinks s2 s3) :
    Shrinks s1 s3 :=
  ⟨h2.1.trans h1.1, h2.2.1.trans h1.2.1, fun j v h => h1.2.2 j v (h2.2.2 j v h)⟩

theorem keepsSingles_refl (s : SysState) : KeepsSingles s s := ⟨rfl, rfl, fun _ => rfl⟩

theorem keepsSingles_trans {s1 s2 s3 : SysState} (h1 : KeepsSingles s1 s2)
    (h2 : KeepsSingles s2 s3) : KeepsSingles s1 s3 :=
  ⟨h2.1.trans h1.1, h2.2.1.trans h1.2.1, fun j => (h2.2.2 j).trans (h1.2.2 j)⟩

theorem shrinks_of_keepsSingles {s s' : SysState} (h : KeepsSingles s s') : Shrinks s s' :=
  ⟨h.1, h.2.1, fun j _ hv => (h.2.2 j) ▸ hv⟩

theorem good_of_shrinks {s s' : SysState} (h : Shrinks s s') (hg : GoodState s) :
    GoodState s' := by
  refine ⟨fun j v hv => ?_, ?_⟩
  · rw [h.1]
    exact hg.1 j v (h.2.2 j v hv)
  · rw [h.1, h.2.1]
    exact hg.2

theorem cacheDel_shrinks (env : CacheEnv) (k : CacheKey) (s : SysState) :
    Shrinks s (cacheDel env k s).2.1 := by
  unfold cacheDel
  cases he : env.failing
  · simp only [Bool.false_eq_true, if_false]
    refine ⟨rfl, rfl, fun j v hv => ?_⟩
    rw [lookupKey_filter_del] at hv
    by_cases hj : CacheKey.single j = k
    · rw [if_pos hj] at hv; exact absurd hv (by simp)
    · rwa [if_neg hj] at hv
  · simp only [if_true]
    exact shrinks_refl s

theorem cacheDel_list_keepsSingles (env : CacheEnv) (uid : Nat) (s : SysState)
    (k : CacheKey) (hk : k = CacheKey.user uid ∨ k = CacheKey.shared uid) :
    KeepsSingles s (cacheDel env k s).2.1 := by
  unfold cacheDel
  cases he : env.failing
  · simp only [Bool.false_eq_true, if_false]
    refine ⟨rfl, rfl, fun j => ?_⟩
    rw [lookupKey_filter_del, if_neg]
    rcases hk with h | h <;> (subst h; simp)
  · simp only [if_true]
    exact keepsSingles_refl s

theorem bind_shrinks {α β : Type} (x : M α) (f : α → M β)
    (hx : ∀ s, Shrinks s (x s).2.1) (hf : ∀ a s, Shrinks s (f a s).2.1) (s : SysState) :
    Shrinks s ((x >>= f) s).2.1 := by
  rw [bind_apply]
  unfold mBind
  rcases hxe : x s with ⟨r, s1, t1⟩
  have h1 : Shrinks s s1 := by have := hx s; rwa [hxe] at this
  cases r with
  | error e => exact h1
  | ok a => exact shrinks_trans h1 (hf a s1)

theorem bind_keepsSingles {α β : Type} (x : M α) (f : α → M β)
    (hx : ∀ s, KeepsSingles s (x s).2.1) (hf : ∀ a s, KeepsSingles s ((f a) s).2.1)
    (s : SysState) : KeepsSingles s ((x >>= f) s).2.1 := by
  rw [bind_apply]
  unfold mBind
  rcases hxe : x s with ⟨r, s1, t1⟩
  have h1 : KeepsSingles s s1 := by have := hx s; rwa [hxe] at this
  cases r with
  | error e => exact h1
  | ok a => exact keepsSingles_trans h1 (hf a s1)

theorem clearUserCache_keepsSingles (env : CacheEnv) (uid : Nat) (s : SysState) :
    KeepsSingles s (clearUserCache env uid s).2.1 := by
  unfold clearUserCache
  exact bind_keepsSingles _ _
    (fun s => cacheDel_list_keepsSingles env uid s _ (Or.inl rfl))
    (fun _ s => cacheDel_list_keepsSingles env uid s _ (Or.inr rfl)) s

theorem forM_clear_keepsSingles (env : CacheEnv) (l : List FormattedUser) (s : SysState) :
    KeepsSingles s ((l.forM (fun user => clearUserCache env user.id)) s).2.1 := by
  induction l generalizing s with
  | nil => exact keepsSingles_refl s
  | cons a l ih =>
      exact bind_keepsSingles _ _ (fun s => clearUserCache_keepsSingles env a.id s)
        (fun _ s => ih s) s

theorem findOne_good (env : CacheEnv) (i uid : Nat) (a : Bool) (st : SysState)
    (h : GoodState st) : GoodState (findOne env i uid a st).2.1 := by
  unfold findOne
  simp only [bind_apply, mBind, cacheGet]
  cases he : env.failing
  · simp only [Bool.false_eq_true, if_false]
    cases hl : lookupKey st.cache (CacheKey.single i) with
    | some v =>
        cases v with
        | note n => dsimp only; split <;> exact h
        | list l =>
            simp only [bind_apply, mBind, notesFindOneById]
            cases hfind : st.notes.find? (fun m => m.id == i) with
            | none => exact h
            | some n =>
                dsimp only
                split
                · exact h
                · simp only [bind_apply, mBind, cacheSet, mPure, he, Bool.false_eq_true, if_false]
                  refine ⟨fun j v hv => ?_, h.2⟩
                  simp only [lookupKey_setKey] at hv
                  by_cases hj : CacheKey.single j = CacheKey.single i
                  · obtain rfl : j = i := by injection hj
                    exact ⟨n, List.mem_of_find?_eq_some hfind,
                      by simpa using List.find?_some hfind⟩
                  · rw [if_neg hj] at hv
                    exact h.1 j v hv
    | none =>
        simp only [bind_apply, mBind, notesFindOneById]
        cases hfind : st.notes.find? (fun m => m.id == i) with
        | none => exact h
        | some n =>
                    dsimp only
                    split
                    · exact h
                    · simp only [bind_apply, mBind, cacheSet, mPure, he, Bool.false_eq_true, if_false]
                      refine ⟨fun j v hv => ?_, h.2⟩
                      simp only [lookupKey_setKey] at hv
                      by_cases hj : CacheKey.single j = CacheKey.single i
                      · obtain rfl : j = i := by injection hj
                        exact ⟨n, List.mem_of_find?_eq_some hfind,
                          by simpa using List.find?_some hfind⟩
                      · rw [if_neg hj] at hv
                        exact h.1 j v hv
  · simp only [if_true]
    exact h

theorem exists_id_map_save (l : List Note) (x : Note) (j : Nat)
    (h : ∃ n ∈ l, n.id = j) :
    ∃ n ∈ l.map (fun m => if m.id == x.id then x else m), n.id = j := by
  obtain ⟨n, hn, hid⟩ := h
  refine ⟨_, List.mem_map_of_mem _ hn, ?_⟩
  by_cases hnx : n.id = x.id
  · rw [if_pos (by simpa using hnx)]
    rw [← hnx]
    exact hid
  · rw [if_neg (by simpa using hnx)]
    exact hid

theorem findAllByUser_good (env : CacheEnv) (uid : Nat) (a : Bool) (st : SysState)
    (h : GoodState st) : GoodState (findAllByUser env uid a st).2.1 := by
  unfold findAllByUser
  cases a
  · simp only [Bool.false_eq_true, if_false, bind_apply, mBind, cacheGet]
    cases he : env.failing
    · simp only [Bool.false_eq_true, if_false]
      cases hl : lookupKey st.cache (CacheKey.user uid) with
      | some v =>
          cases v with
          | list l => exact h
          | note n =>
              simp only [bind_apply, mBind, notesFindByOwner, mPure, cacheSet, he,
                Bool.false_eq_true, if_false]
              refine ⟨fun j v hv => ?_, h.2⟩
              simp only [lookupKey_setKey] at hv
              rw [if_neg (by simp)] at hv
              exact h.1 j v hv
      | none =>
          simp only [bind_apply, mBind, notesFindByOwner, mPure, cacheSet, he,
            Bool.false_eq_true, if_false]
          refine ⟨fun j v hv => ?_, h.2⟩
          simp only [lookupKey_setKey] at hv
          rw [if_neg (by simp)] at hv
          exact h.1 j v hv
    · simp only [if_true]
      exact h
  · simp only [if_true, bind_apply, mBind, notesFindAll, mPure]
    exact h

theorem findSharedWithUser_good (env : CacheEnv) (uid : Nat) (a : Bool) (st : SysState)
    (h : GoodState st) : GoodState (findSharedWithUser env uid a st).2.1 := by
  unfold findSharedWithUser
  cases a
  · simp only [Bool.false_eq_true, if_false, bind_apply, mBind, cacheGet]
    cases he : env.failing
    · simp only [Bool.false_eq_true, if_false]
      cases hl : lookupKey st.cache (CacheKey.shared uid) with
      | some v =>
          cases v with
          | list l => exact h
          | note n =>
              simp only [bind_apply, mBind, notesFindBySharee, mPure, cacheSet, he,
                Bool.false_eq_true, if_false]
              refine ⟨fun j v hv => ?_, h.2⟩
              simp only [lookupKey_setKey] at hv
              rw [if_neg (by simp)] at hv
              exact h.1 j v hv
      | none =>
          simp only [bind_apply, mBind, notesFindBySharee, mPure, cacheSet, he,
            Bool.false_eq_true, if_false]
          refine ⟨fun j v hv => ?_, h.2⟩
          simp only [lookupKey_setKey] at hv
          rw [if_neg (by simp)] at hv
          exact h.1 j v hv
    · simp only [if_true]
      exact h
  · simp only [if_true, bind_apply, mBind, notesFindAll, mPure]
    exact h

theorem create_good (env : CacheEnv) (uid : Nat) (dto : CreateNoteDto) (st : SysState)
    (h : GoodState st) : GoodState (create env uid dto st).2.1 := by
  unfold create
  simp only [bind_apply, mBind, usersFindOne]
  cases hu : st.users.find? (fun u => u.id == uid) with
  | none => exact h
  | some owner =>
      dsimp only
      simp only [bind_apply, mBind, notesSaveNew]
      refine good_of_shrinks
        (shrinks_of_keepsSingles (bind_keepsSingles _ _
          (fun s => clearUserCache_keepsSingles env uid s)
          (fun _ s => keepsSingles_refl s) _))
        ⟨fun j v hv => ?_, fun n hn => ?_⟩
      · obtain ⟨m, hm, hid⟩ := h.1 j v hv
        exact ⟨m, List.mem_append_left _ hm, hid⟩
      · rcases List.mem_append.mp hn with hm | hm
        · exact h.2 n hm
        · simp only [List.mem_singleton] at hm
          subst hm
          exact ⟨le_refl _, le_refl _⟩

theorem tail3_shrinks (env : CacheEnv) (k : CacheKey) (uid : Nat) (l : List FormattedUser)
    (fn : FormattedNote) (s : SysState) :
    Shrinks s ((cacheDel env k >>= fun _ =>
      clearUserCache env uid >>= fun _ =>
      l.forM (fun user => clearUserCache env user.id) >>= fun _ =>
      pure fn) s).2.1 :=
  bind_shrinks _ _ (fun s => cacheDel_shrinks env k s)
    (fun _ s => bind_shrinks _ _
      (fun s => shrinks_of_keepsSingles (clearUserCache_keepsSingles env uid s))
      (fun _ s => bind_shrinks _ _
        (fun s => shrinks_of_keepsSingles (forM_clear_keepsSingles env l s))
        (fun _ s => shrinks_refl s) s) s) s

theorem tail2_shrinks (env : CacheEnv) (k : CacheKey) (uid : Nat)
    (fn : FormattedNote) (s : SysState) :
    Shrinks s ((cacheDel env k >>= fun _ =>
      clearUserCache env uid >>= fun _ =>
      pure fn) s).2.1 :=
  bind_shrinks _ _ (fun s => cacheDel_shrinks env k s)
    (fun _ s => bind_shrinks _ _
      (fun s => shrinks_of_keepsSingles (clearUserCache_keepsSingles env uid s))
      (fun _ s => shrinks_refl s) s) s

theorem update_good (env : CacheEnv) (i uid : Nat) (dto : CreateNoteDto) (a : Bool)
    (st : SysState) (h : GoodState st) : GoodState (update env i uid dto a st).2.1 := by
  unfold update
  rw [bind_apply]
  unfold mBind
  rcases hx : findOne env i uid a st with ⟨r, s1, t1⟩
  have h1 : GoodState s1 := by have := findOne_good env i uid a st h; rwa [hx] at this
  cases r with
  | error e => exact h1
  | ok note =>
      dsimp only
      split
      · exact h1
      · simp only [bind_apply, mBind, notesFindOneById]
        cases hfind : s1.notes.find? (fun m => m.id == i) with
        | none => exact h1
        | some existing =>
            dsimp only
            simp only [bind_apply, mBind, getClock, notesSaveExisting, mPure]
            have hex := h1.2 existing (List.mem_of_find?_eq_some hfind)
            refine good_of_shrinks
              (tail3_shrinks env (CacheKey.single i) uid note.sharedWith _ _)
              ⟨fun j v hv => ?_, fun n hn => ?_⟩
            · exact exists_id_map_save s1.notes
                { existing with title := dto.title, content := dto.content, updatedAt := s1.clock }
                j (h1.1 j v hv)
            · obtain ⟨m, hm, hfm⟩ := List.mem_map.mp hn
              by_cases hmx : (m.id == existing.id) = true
              · rw [if_pos hmx] at hfm
                subst hfm
                exact ⟨le_trans hex.1 hex.2, le_refl _⟩
              · rw [if_neg hmx] at hfm
                subst hfm
                exact h1.2 m hm

theorem remove_good (env : CacheEnv) (i uid : Nat) (a : Bool) (st : SysState)
    (h : GoodState st) : GoodState (remove env i uid a st).2.1 := by
  unfold remove
  rw [bind_apply]
  unfold mBind
  rcases hx : findOne env i uid a st with ⟨r, s1, t1⟩
  have h1 : GoodState s1 := by have := findOne_good env i uid a st h; rwa [hx] at this
  cases r with
  | error e => exact h1
  | ok fn =>
      dsimp only
      split
      · exact h1
      · rw [bind_apply]
        unfold mBind
        cases he : env.failing
        · -- cacheDel succeeds: s2 has no single-i entry
          simp only [cacheDel, he, Bool.false_eq_true, if_false]
          unfold mBind
          rcases hcl : clearUserCache env uid
              { s1 with cache := s1.cache.filter (fun p => p.1 != CacheKey.single i) }
            with ⟨rc, s3, t3⟩
          have hk3 : KeepsSingles
              { s1 with cache := s1.cache.filter (fun p => p.1 != CacheKey.single i) } s3 := by
            have := clearUserCache_keepsSingles env uid
              { s1 with cache := s1.cache.filter (fun p => p.1 != CacheKey.single i) }
            rwa [hcl] at this
          cases rc with
          | error e =>
              refine good_of_shrinks (shrinks_of_keepsSingles hk3) ⟨fun j v hv => ?_, h1.2⟩
              rw [lookupKey_filter_del] at hv
              by_cases hj : CacheKey.single j = CacheKey.single i
              · rw [if_pos hj] at hv; exact absurd hv (by simp)
              · rw [if_neg hj] at hv; exact h1.1 j v hv
          | ok u =>
              dsimp only
              unfold mBind
              rcases hfm : (fn.sharedWith.forM (fun user => clearUserCache env user.id)) s3
                with ⟨rf, s4, t4⟩
              have hk4 : KeepsSingles s3 s4 := by
                have := forM_clear_keepsSingles env fn.sharedWith s3
                rwa [hfm] at this
              have hk : KeepsSingles
                  { s1 with cache := s1.cache.filter (fun p => p.1 != CacheKey.single i) } s4 :=
                keepsSingles_trans hk3 hk4
              have hgood4 : GoodState s4 := by
                refine good_of_shrinks (shrinks_of_keepsSingles hk) ⟨fun j v hv => ?_, h1.2⟩
                rw [lookupKey_filter_del] at hv
                by_cases hj : CacheKey.single j = CacheKey.single i
                · rw [if_pos hj] at hv; exact absurd hv (by simp)
                · rw [if_neg hj] at hv; exact h1.1 j v hv
              cases rf with
              | error e => exact hgood4
              | ok u2 =>
                  simp only [bind_apply, mBind, notesFindOneById]
                  cases hfind : s4.notes.find? (fun m => m.id == i) with
                  | none => exact hgood4
                  | some existing =>
                      dsimp only
                      simp only [bind_apply, mBind, notesRemove, mPure]
                      refine ⟨fun j v hv => ?_, fun n hn => ?_⟩
                      · -- cache of s4 unchanged; notes filtered
                        have hvs4 : lookupKey s4.cache (CacheKey.single j) = some v := hv
                        have hnone : lookupKey s4.cache (CacheKey.single i) = none := by
                          rw [hk.2.2 i, lookupKey_filter_del, if_pos rfl]
                        have hji : j ≠ i := by
                          intro hj; rw [hj] at hvs4; rw [hvs4] at hnone; cases hnone
                        obtain ⟨m, hm, hid⟩ := hgood4.1 j v hvs4
                        refine ⟨m, List.mem_filter.mpr ⟨hm, ?_⟩, hid⟩
                        simpa using hid ▸ hji
                      · exact hgood4.2 n (List.mem_filter.mp hn).1
        · -- cacheDel fails with the cache-layer error: state is s1
          simp only [cacheDel, he, if_true]
          exact h1

theorem share_good (env : CacheEnv) (i o t : Nat) (st : SysState)
    (h : GoodState st) : GoodState (share env i o t st).2.1 := by
  unfold share
  rw [bind_apply]
  unfold mBind
  rcases hx : findOne env i o false st with ⟨r, s1, t1⟩
  have h1 : GoodState s1 := by have := findOne_good env i o false st h; rwa [hx] at this
  cases r with
  | error e => exact h1
  | ok note =>
      dsimp only
      split
      · exact h1
      · simp only [bind_apply, mBind, notesFindOneById]
        cases hfind : s1.notes.find? (fun m => m.id == i) with
        | none => exact h1
        | some existing =>
            dsimp only
            simp only [bind_apply, mBind, usersFindOne]
            cases hu : s1.users.find? (fun u => u.id == t) with
            | none => exact h1
            | some target =>
                dsimp only
                simp only [bind_apply, mBind, notesSaveExisting, mPure]
                have hex := h1.2 existing (List.mem_of_find?_eq_some hfind)
                refine good_of_shrinks
                  (tail2_shrinks env (CacheKey.single i) t _ _)
                  ⟨fun j v hv => ?_, fun n hn => ?_⟩
                · exact exists_id_map_save s1.notes
                    { existing with sharedWith := existing.sharedWith ++ [target] } j
                    (h1.1 j v hv)
                · obtain ⟨m, hm, hfm⟩ := List.mem_map.mp hn
                  by_cases hmx : (m.id == existing.id) = true
                  · rw [if_pos hmx] at hfm
                    subst hfm
                    exact ⟨hex.1, hex.2⟩
                  · rw [if_neg hmx] at hfm
                    subst hfm
                    exact h1.2 m hm

theorem good_of_reachable (st : SysState) (h : Reachable st) : GoodState st := by
  induction h with
  | base st hc ht =>
      refine ⟨fun i v hv => ?_, ht⟩
      rw [hc] at hv
      simp [lookupKey] at hv
  | tick st d hr ih =>
      exact ⟨ih.1, fun n hn => ⟨(ih.2 n hn).1, le_trans (ih.2 n hn).2 (Nat.le_add_right _ _)⟩⟩
  | opCreate env uid dto st hr ih => exact create_good env uid dto st ih
  | opListOwned env uid a st hr ih => exact findAllByUser_good env uid a st ih
  | opListShared env uid a st hr ih => exact findSharedWithUser_good env uid a st ih
  | opGetOne env i uid a st hr ih => exact findOne_good env i uid a st ih
  | opUpdate env i uid dto a st hr ih => exact update_good env i uid dto a st ih
  | opRemove env i uid a st hr ih => exact remove_good env i uid a st ih
  | opShare env i o t st hr ih => exact share_good env i o t st ih

/-! ### C7 -/

/-- C7: in every reachable state, `getOne` on a note id that is not in
the store fails with NotFound for every actor, regardless of id or role
(the single-entry cache cannot hold an entry for an id absent from the
store, by the reachability invariant). -/
theorem C7_getOne_notFound (st : SysState) (hr : Reachable st) (id uid : Nat) (isAdmin : Bool)
    (habsent : ∀ n ∈ st.notes, n.id ≠ id) :
    (findOne okEnv id uid isAdmin st).1 = Except.error (Err.notFound "Note not found") := by
  have hg := good_of_reachable st hr
  have hfind : st.notes.find? (fun m => m.id == id) = none :=
    List.find?_eq_none.mpr (fun n hn => by simpa using habsent n hn)
  have hl : lookupKey st.cache (CacheKey.single id) = none := by
    cases hlv : lookupKey st.cache (CacheKey.single id) with
    | none => rfl
    | some v =>
        obtain ⟨n, hn, hid⟩ := hg.1 id v hlv
        exact absurd hid (habsent n hn)
  rw [findOne_miss_notFound st id uid isAdmin hl hfind]

theorem C7_witness :
    Reachable st0 ∧ (∀ n ∈ st0.notes, n.id ≠ 5) ∧
    (findOne okEnv 5 2 false st0).1 = Except.error (Err.notFound "Note not found") :=
  ⟨Reachable.base st0 rfl (by decide), by decide,
    C7_getOne_notFound st0 (Reachable.base st0 rfl (by decide)) 5 2 false (by decide)⟩

theorem clearUserCache_run (uid : Nat) (s : SysState) :
    clearUserCache okEnv uid s =
      (Except.ok (),
       { s with cache :=
          (s.cache.filter (fun p => p.1 != CacheKey.user uid)).filter (fun p => p.1 != CacheKey.shared uid) },
       clearDels uid) := rfl

theorem forM_clear_run (l : List FormattedUser) (s : SysState) :
    ((l.forM (fun user => clearUserCache okEnv user.id)) s).1 = Except.ok () ∧
    ((l.forM (fun user => clearUserCache okEnv user.id)) s).2.2
      = l.flatMap (fun u => clearDels u.id) := by
  induction l generalizing s with
  | nil => exact ⟨rfl, rfl⟩
  | cons a l ih =>
      show ((clearUserCache okEnv a.id >>= fun _ =>
          l.forM (fun user => clearUserCache okEnv user.id)) s).1 = Except.ok () ∧
        ((clearUserCache okEnv a.id >>= fun _ =>
          l.forM (fun user => clearUserCache okEnv user.id)) s).2.2
          = (a :: l).flatMap (fun u => clearDels u.id)
      rw [bind_apply]
      unfold mBind
      rw [clearUserCache_run]
      dsimp only
      refine ⟨(ih _).1, ?_⟩
      rw [(ih _).2, List.flatMap_cons]

theorem run_bind_ok (x : M α) (f : α → M β) (s : SysState) (a : α) (s1 : SysState)
    (t1 : List CacheEvent) (hx : x s = (Except.ok a, s1, t1)) :
    (x >>= f) s = ((f a s1).1, (f a s1).2.1, t1 ++ (f a s1).2.2) := by
  rw [bind_apply]
  unfold mBind
  rw [hx]

theorem run_bind_err (x : M α) (f : α → M β) (s : SysState) (e : Err) (s1 : SysState)
    (t1 : List CacheEvent) (hx : x s = (Except.error e, s1, t1)) :
    (x >>= f) s = (Except.error e, s1, t1) := by
  rw [bind_apply]
  unfold mBind
  rw [hx]

theorem cacheDel_run (k : CacheKey) (s : SysState) :
    cacheDel okEnv k s
      = (Except.ok (), { s with cache := s.cache.filter (fun p => p.1 != k) },
         [CacheEvent.del k]) := rfl

theorem tail1_run (l : List FormattedUser) (fn : FormattedNote) (s : SysState) :
    ((l.forM (fun user => clearUserCache okEnv user.id) >>= fun _ => pure fn) s).1
      = Except.ok fn ∧
    ((l.forM (fun user => clearUserCache okEnv user.id) >>= fun _ => pure fn) s).2.2
      = l.flatMap (fun u => clearDels u.id) := by
  rcases hfm : (l.forM (fun user => clearUserCache okEnv user.id)) s with ⟨rf, s4, t4⟩
  have h1 := forM_clear_run l s
  rw [hfm] at h1
  obtain ⟨h1a, h1b⟩ := h1
  dsimp only at h1a h1b
  subst h1a
  subst h1b
  rw [run_bind_ok _ _ _ _ _ _ hfm]
  exact ⟨rfl, by simp only [pure_apply]; simp⟩

theorem tail2_run (i uid : Nat) (fn : FormattedNote) (s : SysState) :
    ((cacheDel okEnv (CacheKey.single i) >>= fun _ =>
      clearUserCache okEnv uid >>= fun _ => pure fn) s).1 = Except.ok fn ∧
    ((cacheDel okEnv (CacheKey.single i) >>= fun _ =>
      clearUserCache okEnv uid >>= fun _ => pure fn) s).2.2
      = CacheEvent.del (CacheKey.single i) :: clearDels uid ∧
    ((cacheDel okEnv (CacheKey.single i) >>= fun _ =>
      clearUserCache okEnv uid >>= fun _ => pure fn) s).2.1.notes = s.notes := by
  rw [run_bind_ok _ _ _ _ _ _ (cacheDel_run (CacheKey.single i) s)]
  rw [run_bind_ok _ _ _ _ _ _ (clearUserCache_run uid _)]
  exact ⟨rfl, rfl, rfl⟩

theorem tail3_run (i uid : Nat) (l : List FormattedUser) (fn : FormattedNote) (s : SysState) :
    ((cacheDel okEnv (CacheKey.single i) >>= fun _ =>
      clearUserCache okEnv uid >>= fun _ =>
      l.forM (fun user => clearUserCache okEnv user.id) >>= fun _ =>
      pure fn) s).1 = Except.ok fn ∧
    ((cacheDel okEnv (CacheKey.single i) >>= fun _ =>
      clearUserCache okEnv uid >>= fun _ =>
      l.forM (fun user => clearUserCache okEnv user.id) >>= fun _ =>
      pure fn) s).2.2
      = CacheEvent.del (CacheKey.single i)
          :: (clearDels uid ++ l.flatMap (fun u => clearDels u.id)) := by
  rw [run_bind_ok _ _ _ _ _ _ (cacheDel_run (CacheKey.single i) s)]
  rw [run_bind_ok _ _ _ _ _ _ (clearUserCache_run uid _)]
  refine ⟨(tail1_run l fn _).1, ?_⟩
  dsimp only
  rw [(tail1_run l fn _).2]
  rfl

theorem notesFindOneById_run (i : Nat) (s : SysState) :
    notesFindOneById i s = (Except.ok (s.notes.find? (fun n => n.id == i)), s, []) := rfl

theorem usersFindOne_run (i : Nat) (s : SysState) :
    usersFindOne i s = (Except.ok (s.users.find? (fun u => u.id == i)), s, []) := rfl

theorem getClock_run (s : SysState) : getClock s = (Except.ok s.clock, s, []) := rfl

theorem notesSaveExisting_run (n : Note) (s : SysState) :
    notesSaveExisting n s
      = (Except.ok n, { s with notes := s.notes.map (fun m => if m.id == n.id then n else m) },
         []) := rfl

theorem update_ok_run (st : SysState) (i uid : Nat) (isAdmin : Bool) (dto : CreateNoteDto)
    (n : Note)
    (hl : lookupKey st.cache (CacheKey.single i) = none)
    (hfind : st.notes.find? (fun m => m.id == i) = some n)
    (hread : (!isAdmin && n.owner.id != uid &&
      !n.sharedWith.any fun user => user.id == uid) = false)
    (hwrite : (!isAdmin && n.owner.id != uid) = false) :
    (update okEnv i uid dto isAdmin st).1
      = Except.ok (formatNote
          { n with title := dto.title, content := dto.content, updatedAt := st.clock }) ∧
    (update okEnv i uid dto isAdmin st).2.2
      = [CacheEvent.get (CacheKey.single i),
         CacheEvent.set (CacheKey.single i) (CacheValue.note (formatNote n)) oneHourMs,
         CacheEvent.del (CacheKey.single i)]
        ++ clearDels uid
        ++ (formatNote n).sharedWith.flatMap (fun u => clearDels u.id) := by
  unfold update
  rw [run_bind_ok _ _ _ _ _ _ (findOne_miss_ok st i uid isAdmin n hl hfind hread)]
  dsimp only
  have hwrite2 : (!isAdmin && (formatNote n).owner.id != uid) = false := hwrite
  simp only [hwrite2, Bool.false_eq_true, if_false]
  rw [run_bind_ok _ _ _ _ _ _ (notesFindOneById_run i _)]
  dsimp only
  rw [hfind]
  dsimp only
  rw [run_bind_ok _ _ _ _ _ _ (getClock_run _)]
  dsimp only
  rw [run_bind_ok _ _ _ _ _ _ (notesSaveExisting_run _ _)]
  dsimp only
  refine ⟨(tail3_run i uid (formatNote n).sharedWith _ _).1, ?_⟩
  rw [(tail3_run i uid (formatNote n).sharedWith _ _).2]
  rfl

theorem share_ok_run (st : SysState) (nid oid tid : Nat) (n : Note) (tu : User)
    (hl : lookupKey st.cache (CacheKey.single nid) = none)
    (hfind : st.notes.find? (fun m => m.id == nid) = some n)
    (hread : (!false && n.owner.id != oid &&
      !n.sharedWith.any fun user => user.id == oid) = false)
    (howner : n.owner.id = oid)
    (htarget : st.users.find? (fun u => u.id == tid) = some tu) :
    (share okEnv nid oid tid st).1
      = Except.ok (formatNote { n with sharedWith := n.sharedWith ++ [tu] }) ∧
    (share okEnv nid oid tid st).2.1.notes
      = st.notes.map (fun m =>
          if m.id == n.id then { n with sharedWith := n.sharedWith ++ [tu] } else m) ∧
    (share okEnv nid oid tid st).2.2
      = [CacheEvent.get (CacheKey.single nid),
         CacheEvent.set (CacheKey.single nid) (CacheValue.note (formatNote n)) oneHourMs,
         CacheEvent.del (CacheKey.single nid)] ++ clearDels tid := by
  unfold share
  rw [run_bind_ok _ _ _ _ _ _ (findOne_miss_ok st nid oid false n hl hfind hread)]
  dsimp only
  have howner2 : ((formatNote n).owner.id != oid) = false := by
    simp only [bne_eq_false_iff_eq]
    exact howner
  simp only [howner2, Bool.false_eq_true, if_false]
  rw [run_bind_ok _ _ _ _ _ _ (notesFindOneById_run nid _)]
  dsimp only
  rw [hfind]
  dsimp only
  rw [run_bind_ok _ _ _ _ _ _ (usersFindOne_run tid _)]
  dsimp only
  rw [htarget]
  dsimp only
  rw [run_bind_ok _ _ _ _ _ _ (notesSaveExisting_run _ _)]
  dsimp only
  refine ⟨(tail2_run nid tid _ _).1, ?_, ?_⟩
  · rw [(tail2_run nid tid _ _).2.2]
  · rw [(tail2_run nid tid _ _).2.1]
    rfl

theorem tailR_run (i : Nat) (l : List FormattedUser) (ex : Note) (s : SysState)
    (hfind : s.notes.find? (fun m => m.id == i) = some ex) :
    ((l.forM (fun user => clearUserCache okEnv user.id) >>= fun _ =>
      notesFindOneById i >>= fun noteEntity? =>
      match noteEntity? with
      | none => throwErr (Err.notFound "Note with this ID not found")
      | some _ => notesRemove i >>= fun _ => pure true) s).1 = Except.ok true := by
  rcases hfm : (l.forM (fun user => clearUserCache okEnv user.id)) s with ⟨rf, s4, t4⟩
  have h1 := forM_clear_run l s
  rw [hfm] at h1
  obtain ⟨h1a, h1b⟩ := h1
  dsimp only at h1a h1b
  subst h1a
  subst h1b
  have hk := forM_clear_keepsSingles okEnv l s
  rw [hfm] at hk
  rw [run_bind_ok _ _ _ _ _ _ hfm]
  dsimp only
  rw [run_bind_ok _ _ _ _ _ _ (notesFindOneById_run i _)]
  dsimp only
  rw [hk.1, hfind]
  rfl

theorem remove_ok_run (st : SysState) (i uid : Nat) (isAdmin : Bool) (n : Note)
    (hl : lookupKey st.cache (CacheKey.single i) = none)
    (hfind : st.notes.find? (fun m => m.id == i) = some n)
    (hread : (!isAdmin && n.owner.id != uid &&
      !n.sharedWith.any fun user => user.id == uid) = false)
    (hwrite : (!isAdmin && n.owner.id != uid) = false) :
    (remove okEnv i uid isAdmin st).1 = Except.ok true := by
  unfold remove
  rw [run_bind_ok _ _ _ _ _ _ (findOne_miss_ok st i uid isAdmin n hl hfind hread)]
  dsimp only
  have hwrite2 : (!isAdmin && (formatNote n).owner.id != uid) = false := hwrite
  simp only [hwrite2, Bool.false_eq_true, if_false]
  rw [run_bind_ok _ _ _ _ _ _ (cacheDel_run (CacheKey.single i) _)]
  dsimp only
  rw [run_bind_ok _ _ _ _ _ _ (clearUserCache_run uid _)]
  dsimp only
  exact tailR_run i (formatNote n).sharedWith n _ hfind

theorem share_read_denied (st : SysState) (nid aid tid : Nat) (fn : FormattedNote)
    (hserved : servedSingle st nid = some fn)
    (howner : fn.owner.id ≠ aid)
    (hshared : ∀ u ∈ fn.sharedWith, u.id ≠ aid) :
    (share okEnv nid aid tid st).1 = Except.error (Err.forbidden "Access denied") := by
  unfold share
  rcases hx : findOne okEnv nid aid false st with ⟨r, s1, t1⟩
  have hr := findOne_denied st nid aid fn hserved howner hshared
  rw [hx] at hr
  dsimp only at hr
  subst hr
  rw [run_bind_err _ _ _ _ _ _ hx]

theorem find?_map_save (l : List Note) (x : Note) (y q : Nat) (hxy : x.id = y) :
    (l.map (fun m => if m.id == y then x else m)).find? (fun m => m.id == q)
      = (l.find? (fun m => m.id == q)).map (fun m => if m.id == y then x else m) := by
  induction l with
  | nil => rfl
  | cons a l ih =>
      have hsave : (if (a.id == y) = true then x else a).id = a.id := by
        by_cases h : a.id = y
        · rw [if_pos (by simpa using h), hxy, h]
        · rw [if_neg (by simpa using h)]
      have hpa : ((if (a.id == y) = true then x else a).id == q) = (a.id == q) := by
        rw [hsave]
      simp only [List.map_cons]
      by_cases hq : a.id = q
      · rw [List.find?_cons_of_pos _ (by rw [hpa]; simpa using hq),
          List.find?_cons_of_pos _ (by simpa using hq)]
        simp
      · rw [List.find?_cons_of_neg _ (by rw [hpa]; simpa using hq),
          List.find?_cons_of_neg _ (by simpa using hq)]
        exact ih

theorem owner_read_auth (n : Note) :
    (!false && n.owner.id != n.owner.id &&
      !n.sharedWith.any fun user => user.id == n.owner.id) = false := by
  simp

theorem admin_auth (n : Note) (uid : Nat) :
    (!true && n.owner.id != uid && !n.sharedWith.any fun user => user.id == uid) = false := by
  simp

theorem served_of_store (st : SysState) (i : Nat) (n : Note)
    (hl : lookupKey st.cache (CacheKey.single i) = none)
    (hfind : st.notes.find? (fun m => m.id == i) = some n) :
    servedSingle st i = some (formatNote n) := by
  unfold servedSingle
  rw [hl, hfind]
  rfl

/-! ### C2 -/

/-- C2 (amended): with the note in the store and a cold single-entry
cache, the owner's read, update, delete and share all succeed, and an
admin's read, update and delete succeed regardless of ownership; but
`share` never consults the role: an actor who is neither the owner nor a
sharee — an admin included — fails share with Forbidden at the read
step. -/
theorem C2_role_checks_amended (st : SysState) (i adminId tid : Nat) (n : Note) (tu : User)
    (dto : CreateNoteDto)
    (hl : lookupKey st.cache (CacheKey.single i) = none)
    (hfind : st.notes.find? (fun m => m.id == i) = some n)
    (htarget : st.users.find? (fun u => u.id == tid) = some tu)
    (hna : n.owner.id ≠ adminId)
    (hns : ∀ u ∈ n.sharedWith, u.id ≠ adminId) :
    (findOne okEnv i n.owner.id false st).1 = Except.ok (formatNote n) ∧
    (findOne okEnv i adminId true st).1 = Except.ok (formatNote n) ∧
    (update okEnv i n.owner.id dto false st).1
      = Except.ok (formatNote
          { n with title := dto.title, content := dto.content, updatedAt := st.clock }) ∧
    (update okEnv i adminId dto true st).1
      = Except.ok (formatNote
          { n with title := dto.title, content := dto.content, updatedAt := st.clock }) ∧
    (remove okEnv i n.owner.id false st).1 = Except.ok true ∧
    (remove okEnv i adminId true st).1 = Except.ok true ∧
    (share okEnv i n.owner.id tid st).1
      = Except.ok (formatNote { n with sharedWith := n.sharedWith ++ [tu] }) ∧
    (share okEnv i adminId tid st).1 = Except.error (Err.forbidden "Access denied") := by
  have hshfmt : ∀ u ∈ (formatNote n).sharedWith, u.id ≠ adminId := by
    intro u hu
    obtain ⟨w, hw, rfl⟩ := List.mem_map.mp hu
    exact hns w hw
  refine ⟨?_, ?_, ?_, ?_, ?_, ?_, ?_, ?_⟩
  · rw [findOne_miss_ok st i n.owner.id false n hl hfind (owner_read_auth n)]
  · rw [findOne_miss_ok st i adminId true n hl hfind (admin_auth n adminId)]
  · exact (update_ok_run st i n.owner.id false dto n hl hfind (owner_read_auth n) (by simp)).1
  · exact (update_ok_run st i adminId true dto n hl hfind (admin_auth n adminId) (by simp)).1
  · exact remove_ok_run st i n.owner.id false n hl hfind (owner_read_auth n) (by simp)
  · exact remove_ok_run st i adminId true n hl hfind (admin_auth n adminId) (by simp)
  · exact (share_ok_run st i n.owner.id tid n tu hl hfind (owner_read_auth n) rfl htarget).1
  · exact share_read_denied st i adminId tid (formatNote n)
      (served_of_store st i n hl hfind) hna hshfmt

theorem filter_isDel_clearDels (uid : Nat) :
    (clearDels uid).filter isDel = clearDels uid := rfl

theorem filter_isDel_flatMap (l : List FormattedUser) :
    (l.flatMap (fun u => clearDels u.id)).filter isDel
      = l.flatMap (fun u => clearDels u.id) := by
  induction l with
  | nil => rfl
  | cons a l ih => simp only [List.flatMap_cons, List.filter_append, ih, filter_isDel_clearDels]

/-! ### C3 -/

/-- C3 (amended): after a successful update of note id, the invalidation
sequence is: the single entry for id, then the owned and shared entries
of the ACTING user, then the owned and shared entries of every user in
the served snapshot's `sharedWith` — the note owner's owned entry is
invalidated only when the owner is the actor or a sharee. -/
theorem C3_update_invalidation_amended (st : SysState) (i uid : Nat) (isAdmin : Bool) (dto : CreateNoteDto)
    (n : Note)
    (hl : lookupKey st.cache (CacheKey.single i) = none)
    (hfind : st.notes.find? (fun m => m.id == i) = some n)
    (hread : (!isAdmin && n.owner.id != uid &&
      !n.sharedWith.any fun user => user.id == uid) = false)
    (hwrite : (!isAdmin && n.owner.id != uid) = false) :
    (update okEnv i uid dto isAdmin st).2.2.filter isDel
      = CacheEvent.del (CacheKey.single i)
          :: (clearDels uid ++ (formatNote n).sharedWith.flatMap (fun u => clearDels u.id)) := by
  rw [(update_ok_run st i uid isAdmin dto n hl hfind hread hwrite).2]
  simp only [List.filter_append, filter_isDel_flatMap]
  rfl

theorem notesSaveNew_run (t c : String) (o : User) (s : SysState) :
    notesSaveNew t c o s
      = (Except.ok { id := s.nextId, title := t, content := c, owner := o, sharedWith := [], createdAt := s.clock, updatedAt := s.clock },
         { s with notes := s.notes ++ [{ id := s.nextId, title := t, content := c, owner := o, sharedWith := [], createdAt := s.clock, updatedAt := s.clock }], nextId := s.nextId + 1 },
         []) := rfl

/-! ### C4 -/

/-- C4 (amended): cache failures are not absorbed — the service has no
try/catch around cache calls, so with a failing cache layer getOne,
listOwned and listShared fail with the cache error instead of degrading
to the store, and create persists the note and then fails during cache
invalidation. -/
theorem C4_cache_errors_amended (env : CacheEnv) (st : SysState) (id uid : Nat) (dto : CreateNoteDto)
    (hfail : env.failing = true) :
    (findOne env id uid false st).1 = Except.error Err.cacheFailure ∧
    (findAllByUser env uid false st).1 = Except.error Err.cacheFailure ∧
    (findSharedWithUser env uid false st).1 = Except.error Err.cacheFailure ∧
    (∀ owner, st.users.find? (fun u => u.id == uid) = some owner →
      (create env uid dto st).1 = Except.error Err.cacheFailure ∧
      (create env uid dto st).2.1.notes
        = st.notes ++ [{ id := st.nextId, title := dto.title, content := dto.content, owner := owner, sharedWith := [], createdAt := st.clock, updatedAt := st.clock }]) := by
  have hget : ∀ k, cacheGet env k st = (Except.error Err.cacheFailure, st, [CacheEvent.get k]) := by
    intro k
    simp [cacheGet, hfail]
  refine ⟨?_, ?_, ?_, ?_⟩
  · unfold findOne
    rw [run_bind_err _ _ _ _ _ _ (hget (CacheKey.single id))]
  · unfold findAllByUser
    simp only [Bool.false_eq_true, if_false]
    rw [run_bind_err _ _ _ _ _ _ (hget (CacheKey.user uid))]
  · unfold findSharedWithUser
    simp only [Bool.false_eq_true, if_false]
    rw [run_bind_err _ _ _ _ _ _ (hget (CacheKey.shared uid))]
  · intro owner howner
    unfold create
    rw [run_bind_ok _ _ _ _ _ _ (usersFindOne_run uid st)]
    rw [howner]
    dsimp only
    rw [run_bind_ok _ _ _ _ _ _ (notesSaveNew_run dto.title dto.content owner st)]
    have hclear : ∀ s, clearUserCache env uid s
        = (Except.error Err.cacheFailure, s, [CacheEvent.del (CacheKey.user uid)]) := by
      intro s
      show mBind (cacheDel env (CacheKey.user uid)) _ s = _
      unfold mBind cacheDel
      rw [hfail]
      rfl
    rw [run_bind_err _ _ _ _ _ _ (hclear _)]
    exact ⟨rfl, rfl⟩

/-! ### C5 -/

/-- C5 (amended): `share` has no guard against a self-share:
share(noteId, owner, owner) succeeds and appends the owner to
`sharedWith`, both in the returned snapshot and in the persisted row, so
`sharedWith` can come to contain `ownerId`. -/
theorem C5_self_share_amended (st : SysState) (nid oid : Nat) (n : Note) (tu : User)
    (hl : lookupKey st.cache (CacheKey.single nid) = none)
    (hfind : st.notes.find? (fun m => m.id == nid) = some n)
    (howner : n.owner.id = oid)
    (htarget : st.users.find? (fun u => u.id == oid) = some tu) :
    (share okEnv nid oid oid st).1
      = Except.ok (formatNote { n with sharedWith := n.sharedWith ++ [tu] }) ∧
    (n.sharedWith ++ [tu]).any (fun u => u.id == n.owner.id) = true ∧
    (share okEnv nid oid oid st).2.1.notes.find? (fun m => m.id == nid)
      = some { n with sharedWith := n.sharedWith ++ [tu] } := by
  have hread : (!false && n.owner.id != oid &&
      !n.sharedWith.any fun user => user.id == oid) = false := by
    simp [howner]
  have htu : tu.id = oid := by simpa using List.find?_some htarget
  have hrun := share_ok_run st nid oid oid n tu hl hfind hread howner htarget
  refine ⟨hrun.1, ?_, ?_⟩
  · rw [List.any_append]
    simp [htu, howner]
  · rw [hrun.2.1,
      find?_map_save st.notes { n with sharedWith := n.sharedWith ++ [tu] } n.id nid rfl, hfind]
    simp

/-! ### C6 -/

/-- C6 (amended): `share` appends the target unconditionally: sharing a
note with a user already present in `sharedWith` succeeds and persists a
duplicate entry, so the target's id then occurs at least twice. -/
theorem C6_duplicate_share_amended (st : SysState) (nid oid tid : Nat) (n : Note) (tu : User)
    (hl : lookupKey st.cache (CacheKey.single nid) = none)
    (hfind : st.notes.find? (fun m => m.id == nid) = some n)
    (howner : n.owner.id = oid)
    (htarget : st.users.find? (fun u => u.id == tid) = some tu)
    (hmem : tu ∈ n.sharedWith) :
    (share okEnv nid oid tid st).1
      = Except.ok (formatNote { n with sharedWith := n.sharedWith ++ [tu] }) ∧
    2 ≤ (n.sharedWith ++ [tu]).countP (fun u => u.id == tu.id) := by
  have hread : (!false && n.owner.id != oid &&
      !n.sharedWith.any fun user => user.id == oid) = false := by
    simp [howner]
  refine ⟨(share_ok_run st nid oid tid n tu hl hfind hread howner htarget).1, ?_⟩
  rw [List.countP_append]
  have h1 : 0 < n.sharedWith.countP (fun u => u.id == tu.id) :=
    List.countP_pos_iff.mpr ⟨tu, hmem, by simp⟩
  have h2 : List.countP (fun u => u.id == tu.id) [tu] = 1 := by simp
  omega

/-! ### C8 -/

/-- C8: in every reachable state every note satisfies
`createdAt ≤ updatedAt`, and a successful share leaves the note's
`updatedAt` (and `createdAt`) unchanged, both in the returned snapshot
and in the persisted row — only `update` writes `updatedAt`. -/
theorem C8_updatedAt_share_frame (st : SysState) (nid oid tid : Nat) (n : Note) (tu : User)
    (hl : lookupKey st.cache (CacheKey.single nid) = none)
    (hfind : st.notes.find? (fun m => m.id == nid) = some n)
    (howner : n.owner.id = oid)
    (htarget : st.users.find? (fun u => u.id == tid) = some tu) :
    (∀ s, Reachable s → ∀ m ∈ s.notes, m.createdAt ≤ m.updatedAt) ∧
    (share okEnv nid oid tid st).1
      = Except.ok (formatNote { n with sharedWith := n.sharedWith ++ [tu] }) ∧
    (formatNote { n with sharedWith := n.sharedWith ++ [tu] }).updatedAt = n.updatedAt ∧
    (formatNote { n with sharedWith := n.sharedWith ++ [tu] }).createdAt = n.createdAt ∧
    (share okEnv nid oid tid st).2.1.notes.find? (fun m => m.id == nid)
      = some { n with sharedWith := n.sharedWith ++ [tu] } := by
  have hread : (!false && n.owner.id != oid &&
      !n.sharedWith.any fun user => user.id == oid) = false := by
    simp [howner]
  have hrun := share_ok_run st nid oid tid n tu hl hfind hread howner htarget
  refine ⟨fun s hs m hm => (good_of_reachable s hs).2 m hm |>.1, hrun.1, rfl, rfl, ?_⟩
  rw [hrun.2.1,
    find?_map_save st.notes { n with sharedWith := n.sharedWith ++ [tu] } n.id nid rfl, hfind]
  simp

theorem ttlOk_nil : ttlOk [] := by
  intro k v t h
  cases h

theorem ttlOk_append {t1 t2 : List CacheEvent} (h1 : ttlOk t1) (h2 : ttlOk t2) :
    ttlOk (t1 ++ t2) := by
  intro k v t h
  rcases List.mem_append.mp h with h | h
  · exact h1 k v t h
  · exact h2 k v t h

theorem ttlOk_get (k : CacheKey) : ttlOk [CacheEvent.get k] := by
  intro k' v t h
  simp at h

theorem ttlOk_del (k : CacheKey) : ttlOk [CacheEvent.del k] := by
  intro k' v t h
  simp at h

theorem ttlOk_set (k : CacheKey) (v : CacheValue) : ttlOk [CacheEvent.set k v oneHourMs] := by
  intro k' v' t h
  simp at h
  rw [h.2.2]
  rfl

theorem ttlOk_bind {α β : Type} (x : M α) (f : α → M β)
    (hx : ∀ s, ttlOk (x s).2.2) (hf : ∀ a s, ttlOk ((f a) s).2.2) (s : SysState) :
    ttlOk ((x >>= f) s).2.2 := by
  rw [bind_apply]
  unfold mBind
  rcases hxe : x s with ⟨r, s1, t1⟩
  have h1 : ttlOk t1 := by have := hx s; rwa [hxe] at this
  cases r with
  | error e => exact h1
  | ok a => exact ttlOk_append h1 (hf a s1)

theorem ttlOk_cacheGet (env : CacheEnv) (k : CacheKey) (s : SysState) :
    ttlOk (cacheGet env k s).2.2 := by
  unfold cacheGet
  cases he : env.failing <;> simp only [Bool.false_eq_true, if_false, if_true] <;>
    exact ttlOk_get k

theorem ttlOk_cacheDel (env : CacheEnv) (k : CacheKey) (s : SysState) :
    ttlOk (cacheDel env k s).2.2 := by
  unfold cacheDel
  cases he : env.failing <;> simp only [Bool.false_eq_true, if_false, if_true] <;>
    exact ttlOk_del k

theorem ttlOk_cacheSet (env : CacheEnv) (k : CacheKey) (v : CacheValue) (s : SysState) :
    ttlOk (cacheSet env k v oneHourMs s).2.2 := by
  unfold cacheSet
  cases he : env.failing <;> simp only [Bool.false_eq_true, if_false, if_true] <;>
    exact ttlOk_set k v

theorem ttlOk_pure {α : Type} (a : α) (s : SysState) : ttlOk ((pure a : M α) s).2.2 :=
  ttlOk_nil

theorem ttlOk_throw {α : Type} (e : Err) (s : SysState) : ttlOk ((throwErr e : M α) s).2.2 :=
  ttlOk_nil

theorem ttlOk_clearUserCache (env : CacheEnv) (uid : Nat) (s : SysState) :
    ttlOk (clearUserCache env uid s).2.2 :=
  ttlOk_bind _ _ (fun s => ttlOk_cacheDel env _ s) (fun _ s => ttlOk_cacheDel env _ s) s

theorem ttlOk_forM_clear (env : CacheEnv) (l : List FormattedUser) (s : SysState) :
    ttlOk ((l.forM (fun user => clearUserCache env user.id)) s).2.2 := by
  induction l generalizing s with
  | nil => exact ttlOk_nil
  | cons a l ih =>
      exact ttlOk_bind _ _ (fun s => ttlOk_clearUserCache env a.id s) (fun _ s => ih s) s

theorem ttlOk_findOne (env : CacheEnv) (i uid : Nat) (a : Bool) (s : SysState) :
    ttlOk (findOne env i uid a s).2.2 := by
  unfold findOne
  refine ttlOk_bind _ _ (fun s => ttlOk_cacheGet env _ s) (fun cached s => ?_) s
  cases cached with
  | some v =>
      cases v with
      | note n =>
          dsimp only
          split
          · exact ttlOk_throw _ _
          · exact ttlOk_pure _ _
      | list l =>
          refine ttlOk_bind _ _ (fun s => ttlOk_nil) (fun note? s => ?_) s
          cases note? with
          | none => exact ttlOk_throw _ _
          | some n =>
              dsimp only
              split
              · exact ttlOk_throw _ _
              · exact ttlOk_bind _ _ (fun s => ttlOk_cacheSet env _ _ s)
                  (fun _ s => ttlOk_pure _ _) s
  | none =>
      refine ttlOk_bind _ _ (fun s => ttlOk_nil) (fun note? s => ?_) s
      cases note? with
      | none => exact ttlOk_throw _ _
      | some n =>
          dsimp only
          split
          · exact ttlOk_throw _ _
          · exact ttlOk_bind _ _ (fun s => ttlOk_cacheSet env _ _ s)
              (fun _ s => ttlOk_pure _ _) s

theorem ttlOk_create (env : CacheEnv) (uid : Nat) (dto : CreateNoteDto) (s : SysState) :
    ttlOk (create env uid dto s).2.2 := by
  unfold create
  refine ttlOk_bind _ _ (fun s => ttlOk_nil) (fun owner? s => ?_) s
  cases owner? with
  | none => exact ttlOk_throw _ _
  | some owner =>
      exact ttlOk_bind _ _ (fun s => ttlOk_nil)
        (fun _ s => ttlOk_bind _ _ (fun s => ttlOk_clearUserCache env uid s)
          (fun _ s => ttlOk_pure _ _) s) s

theorem ttlOk_findAllByUser (env : CacheEnv) (uid : Nat) (a : Bool) (s : SysState) :
    ttlOk (findAllByUser env uid a s).2.2 := by
  unfold findAllByUser
  cases a
  · simp only [Bool.false_eq_true, if_false]
    refine ttlOk_bind _ _ (fun s => ttlOk_cacheGet env _ s) (fun cached s => ?_) s
    cases cached with
    | some v =>
        cases v with
        | list l => exact ttlOk_pure _ _
        | note n =>
            exact ttlOk_bind _ _ (fun s => ttlOk_nil)
              (fun notes s => ttlOk_bind _ _ (fun s => ttlOk_cacheSet env _ _ s)
                (fun _ s => ttlOk_pure _ _) s) s
    | none =>
        exact ttlOk_bind _ _ (fun s => ttlOk_nil)
          (fun notes s => ttlOk_bind _ _ (fun s => ttlOk_cacheSet env _ _ s)
            (fun _ s => ttlOk_pure _ _) s) s
  · simp only [if_true]
    exact ttlOk_bind _ _ (fun s => ttlOk_nil) (fun notes s => ttlOk_pure _ _) s

theorem ttlOk_findSharedWithUser (env : CacheEnv) (uid : Nat) (a : Bool) (s : SysState) :
    ttlOk (findSharedWithUser env uid a s).2.2 := by
  unfold findSharedWithUser
  cases a
  · simp only [Bool.false_eq_true, if_false]
    refine ttlOk_bind _ _ (fun s => ttlOk_cacheGet env _ s) (fun cached s => ?_) s
    cases cached with
    | some v =>
        cases v with
        | list l => exact ttlOk_pure _ _
        | note n =>
            exact ttlOk_bind _ _ (fun s => ttlOk_nil)
              (fun notes s => ttlOk_bind _ _ (fun s => ttlOk_cacheSet env _ _ s)
                (fun _ s => ttlOk_pure _ _) s) s
    | none =>
        exact ttlOk_bind _ _ (fun s => ttlOk_nil)
          (fun notes s => ttlOk_bind _ _ (fun s => ttlOk_cacheSet env _ _ s)
            (fun _ s => ttlOk_pure _ _) s) s
  · simp only [if_true]
    exact ttlOk_bind _ _ (fun s => ttlOk_nil) (fun notes s => ttlOk_pure _ _) s

theorem ttlOk_update (env : CacheEnv) (i uid : Nat) (dto : CreateNoteDto) (a : Bool)
    (s : SysState) : ttlOk (update env i uid dto a s).2.2 := by
  unfold update
  refine ttlOk_bind _ _ (fun s => ttlOk_findOne env i uid a s) (fun note s => ?_) s
  dsimp only
  split
  · exact ttlOk_throw _ _
  · refine ttlOk_bind _ _ (fun s => ttlOk_nil) (fun existing? s => ?_) s
    cases existing? with
    | none => exact ttlOk_throw _ _
    | some existing =>
        refine ttlOk_bind _ _ (fun s => ttlOk_nil) (fun now s => ?_) s
        refine ttlOk_bind _ _ (fun s => ttlOk_nil) (fun updatedNote s => ?_) s
        refine ttlOk_bind _ _ (fun s => ttlOk_cacheDel env _ s) (fun _ s => ?_) s
        refine ttlOk_bind _ _ (fun s => ttlOk_clearUserCache env uid s) (fun _ s => ?_) s
        exact ttlOk_bind _ _ (fun s => ttlOk_forM_clear env _ s) (fun _ s => ttlOk_pure _ _) s

theorem ttlOk_remove (env : CacheEnv) (i uid : Nat) (a : Bool) (s : SysState) :
    ttlOk (remove env i uid a s).2.2 := by
  unfold remove
  refine ttlOk_bind _ _ (fun s => ttlOk_findOne env i uid a s) (fun fn s => ?_) s
  dsimp only
  split
  · exact ttlOk_throw _ _
  · refine ttlOk_bind _ _ (fun s => ttlOk_cacheDel env _ s) (fun _ s => ?_) s
    refine ttlOk_bind _ _ (fun s => ttlOk_clearUserCache env uid s) (fun _ s => ?_) s
    refine ttlOk_bind _ _ (fun s => ttlOk_forM_clear env _ s) (fun _ s => ?_) s
    refine ttlOk_bind _ _ (fun s => ttlOk_nil) (fun noteEntity? s => ?_) s
    cases noteEntity? with
    | none => exact ttlOk_throw _ _
    | some _ =>
        exact ttlOk_bind _ _ (fun s => ttlOk_nil) (fun _ s => ttlOk_pure _ _) s

theorem ttlOk_share (env : CacheEnv) (nid oid tid : Nat) (s : SysState) :
    ttlOk (share env nid oid tid s).2.2 := by
  unfold share
  refine ttlOk_bind _ _ (fun s => ttlOk_findOne env nid oid false s) (fun note s => ?_) s
  dsimp only
  split
  · exact ttlOk_throw _ _
  · refine ttlOk_bind _ _ (fun s => ttlOk_nil) (fun existing? s => ?_) s
    cases existing? with
    | none => exact ttlOk_throw _ _
    | some existing =>
        refine ttlOk_bind _ _ (fun s => ttlOk_nil) (fun target? s => ?_) s
        cases target? with
        | none => exact ttlOk_throw _ _
        | some target =>
            refine ttlOk_bind _ _ (fun s => ttlOk_nil) (fun updatedNote s => ?_) s
            refine ttlOk_bind _ _ (fun s => ttlOk_cacheDel env _ s) (fun _ s => ?_) s
            exact ttlOk_bind _ _ (fun s => ttlOk_clearUserCache env tid s)
              (fun _ s => ttlOk_pure _ _) s

theorem formatNote_scrub (f : Nat → String) (n : Note) :
    formatNote (scrubNote f n) = formatNote n := by
  simp only [formatNote, scrubNote, scrubUser, List.map_map]
  rfl

theorem find?_map_comm {α : Type} (l : List α) (g : α → α) (p : α → Bool)
    (hp : ∀ x, p (g x) = p x) :
    (l.map g).find? p = (l.find? p).map g := by
  induction l with
  | nil => rfl
  | cons a l ih =>
      simp only [List.map_cons]
      by_cases h : p a = true
      · rw [List.find?_cons_of_pos _ (by rw [hp]; exact h), List.find?_cons_of_pos _ h]
        rfl
      · rw [List.find?_cons_of_neg _ (by rw [hp a]; exact h), List.find?_cons_of_neg _ h]
        exact ih

theorem filter_map_comm {α : Type} (l : List α) (g : α → α) (p : α → Bool)
    (hp : ∀ x, p (g x) = p x) :
    (l.map g).filter p = (l.filter p).map g := by
  induction l with
  | nil => rfl
  | cons a l ih =>
      simp only [List.map_cons]
      by_cases h : p a = true
      · rw [List.filter_cons_of_pos (by rw [hp]; exact h), List.filter_cons_of_pos h,
          List.map_cons, ih]
      · rw [List.filter_cons_of_neg (by rw [hp a]; exact h), List.filter_cons_of_neg h, ih]

theorem any_map_comm {α : Type} (l : List α) (g : α → α) (p : α → Bool)
    (hp : ∀ x, p (g x) = p x) :
    (l.map g).any p = l.any p := by
  induction l with
  | nil => rfl
  | cons a l ih => simp only [List.map_cons, List.any_cons, hp, ih]

theorem findOne_scrub (env : CacheEnv) (i uid : Nat) (a : Bool) (f : Nat → String)
    (st : SysState) :
    findOne env i uid a (scrubState f st)
      = ((findOne env i uid a st).1, scrubState f (findOne env i uid a st).2.1,
         (findOne env i uid a st).2.2) := by
  unfold findOne
  simp only [bind_apply, mBind, cacheGet]
  cases he : env.failing
  · simp only [Bool.false_eq_true, if_false]
    have hc : lookupKey (scrubState f st).cache (CacheKey.single i)
        = lookupKey st.cache (CacheKey.single i) := rfl
    rw [hc]
    cases hl : lookupKey st.cache (CacheKey.single i) with
    | some v =>
        cases v with
        | note n =>
            dsimp only
            split
            · rfl
            · rfl
        | list l =>
            simp only [bind_apply, mBind, notesFindOneById]
            have hf : (scrubState f st).notes.find? (fun m => m.id == i)
                = (st.notes.find? (fun m => m.id == i)).map (scrubNote f) :=
              find?_map_comm st.notes (scrubNote f) _ (fun x => rfl)
            rw [hf]
            cases hfind : st.notes.find? (fun m => m.id == i) with
            | none => rfl
            | some n =>
                simp only [Option.map]
                have hany : (scrubNote f n).sharedWith.any (fun user => user.id == uid)
                    = n.sharedWith.any (fun user => user.id == uid) :=
                  any_map_comm n.sharedWith (scrubUser f) _ (fun x => rfl)
                have hcond : (!a && (scrubNote f n).owner.id != uid &&
                      !(scrubNote f n).sharedWith.any fun user => user.id == uid)
                    = (!a && n.owner.id != uid &&
                      !n.sharedWith.any fun user => user.id == uid) := by
                  rw [hany]
                  rfl
                rw [hcond]
                split
                · rfl
                · simp only [bind_apply, mBind, cacheSet, he, Bool.false_eq_true, if_false]
                  rw [formatNote_scrub]
                  rfl
    | none =>
        simp only [bind_apply, mBind, notesFindOneById]
        have hf : (scrubState f st).notes.find? (fun m => m.id == i)
            = (st.notes.find? (fun m => m.id == i)).map (scrubNote f) :=
          find?_map_comm st.notes (scrubNote f) _ (fun x => rfl)
        rw [hf]
        cases hfind : st.notes.find? (fun m => m.id == i) with
        | none => rfl
        | some n =>
            simp only [Option.map]
            have hany : (scrubNote f n).sharedWith.any (fun user => user.id == uid)
                = n.sharedWith.any (fun user => user.id == uid) :=
              any_map_comm n.sharedWith (scrubUser f) _ (fun x => rfl)
            have hcond : (!a && (scrubNote f n).owner.id != uid &&
                  !(scrubNote f n).sharedWith.any fun user => user.id == uid)
                = (!a && n.owner.id != uid &&
                  !n.sharedWith.any fun user => user.id == uid) := by
              rw [hany]
              rfl
            rw [hcond]
            split
            · rfl
            · simp only [bind_apply, mBind, cacheSet, he, Bool.false_eq_true, if_false]
              rw [formatNote_scrub]
              rfl
  · rfl

theorem map_formatNote_scrub (f : Nat → String) (l : List Note) :
    (l.map (scrubNote f)).map formatNote = l.map formatNote := by
  rw [List.map_map]
  apply List.map_congr_left
  intro m hm
  exact formatNote_scrub f m

theorem bind_scrub {α β : Type} (x : M α) (f2 : α → M β) (f : Nat → String) (s : SysState)
    (hx : x (scrubState f s) = ((x s).1, scrubState f (x s).2.1, (x s).2.2))
    (hf : ∀ a s1, f2 a (scrubState f s1)
      = ((f2 a s1).1, scrubState f ((f2 a s1).2.1), (f2 a s1).2.2)) :
    (x >>= f2) (scrubState f s)
      = (((x >>= f2) s).1, scrubState f (((x >>= f2) s).2.1), ((x >>= f2) s).2.2) := by
  rw [bind_apply, bind_apply]
  unfold mBind
  rw [hx]
  rcases hxe : x s with ⟨r, s1, t1⟩
  cases r with
  | error e => rfl
  | ok a =>
      dsimp only
      rw [hf a s1]

theorem cacheDel_scrub (env : CacheEnv) (k : CacheKey) (f : Nat → String) (s : SysState) :
    cacheDel env k (scrubState f s)
      = ((cacheDel env k s).1, scrubState f (cacheDel env k s).2.1, (cacheDel env k s).2.2) := by
  unfold cacheDel
  cases he : env.failing <;> rfl

theorem clearUserCache_scrub (env : CacheEnv) (uid : Nat) (f : Nat → String) (s : SysState) :
    clearUserCache env uid (scrubState f s)
      = ((clearUserCache env uid s).1, scrubState f (clearUserCache env uid s).2.1,
         (clearUserCache env uid s).2.2) := by
  unfold clearUserCache
  exact bind_scrub _ _ f s (cacheDel_scrub env _ f s) (fun a s1 => cacheDel_scrub env _ f s1)

theorem forM_clear_scrub (env : CacheEnv) (l : List FormattedUser) (f : Nat → String)
    (s : SysState) :
    (l.forM (fun user => clearUserCache env user.id)) (scrubState f s)
      = (((l.forM (fun user => clearUserCache env user.id)) s).1,
         scrubState f ((l.forM (fun user => clearUserCache env user.id)) s).2.1,
         ((l.forM (fun user => clearUserCache env user.id)) s).2.2) := by
  induction l generalizing s with
  | nil => rfl
  | cons a l ih =>
      exact bind_scrub _ _ f s (clearUserCache_scrub env a.id f s) (fun _ s1 => ih s1)

theorem pure_scrub {α : Type} (a : α) (f : Nat → String) (s : SysState) :
    (pure a : M α) (scrubState f s)
      = (((pure a : M α) s).1, scrubState f ((pure a : M α) s).2.1,
         ((pure a : M α) s).2.2) := rfl

theorem create_scrub (env : CacheEnv) (uid : Nat) (dto : CreateNoteDto) (f : Nat → String)
    (st : SysState) :
    create env uid dto (scrubState f st)
      = ((create env uid dto st).1, scrubState f (create env uid dto st).2.1,
         (create env uid dto st).2.2) := by
  unfold create
  simp only [bind_apply, mBind, usersFindOne]
  have hu : (scrubState f st).users.find? (fun u => u.id == uid)
      = (st.users.find? (fun u => u.id == uid)).map (scrubUser f) :=
    find?_map_comm st.users (scrubUser f) _ (fun x => rfl)
  rw [hu]
  cases husers : st.users.find? (fun u => u.id == uid) with
  | none => rfl
  | some owner =>
      simp only [Option.map]
      simp only [bind_apply, mBind, notesSaveNew]
      have hs2 : ({ users := (scrubState f st).users, notes := (scrubState f st).notes ++ [{ id := (scrubState f st).nextId, title := dto.title, content := dto.content, owner := scrubUser f owner, sharedWith := [], createdAt := (scrubState f st).clock, updatedAt := (scrubState f st).clock }], cache := (scrubState f st).cache, nextId := (scrubState f st).nextId + 1, clock := (scrubState f st).clock } : SysState)
          = scrubState f { users := st.users, notes := st.notes ++ [{ id := st.nextId, title := dto.title, content := dto.content, owner := owner, sharedWith := [], createdAt := st.clock, updatedAt := st.clock }], cache := st.cache, nextId := st.nextId + 1, clock := st.clock } := by
        simp only [scrubState, List.map_append]
        rfl
      rw [hs2, clearUserCache_scrub env uid f _]
      rcases hcl : clearUserCache env uid { users := st.users, notes := st.notes ++ [{ id := st.nextId, title := dto.title, content := dto.content, owner := owner, sharedWith := [], createdAt := st.clock, updatedAt := st.clock }], cache := st.cache, nextId := st.nextId + 1, clock := st.clock } with ⟨rc, s3, t3⟩
      cases rc with
      | error e => rfl
      | ok u => rfl

theorem findAllByUser_scrub (env : CacheEnv) (uid : Nat) (a : Bool) (f : Nat → String)
    (st : SysState) :
    findAllByUser env uid a (scrubState f st)
      = ((findAllByUser env uid a st).1, scrubState f (findAllByUser env uid a st).2.1,
         (findAllByUser env uid a st).2.2) := by
  unfold findAllByUser
  cases a
  · simp only [Bool.false_eq_true, if_false, bind_apply, mBind, cacheGet]
    cases he : env.failing
    · simp only [Bool.false_eq_true, if_false]
      have hc : lookupKey (scrubState f st).cache (CacheKey.user uid)
          = lookupKey st.cache (CacheKey.user uid) := rfl
      rw [hc]
      cases hl : lookupKey st.cache (CacheKey.user uid) with
      | some v =>
          cases v with
          | list l => rfl
          | note n =>
              simp only [bind_apply, mBind, notesFindByOwner]
              have hfil : (scrubState f st).notes.filter (fun n => n.owner.id == uid)
                  = (st.notes.filter (fun n => n.owner.id == uid)).map (scrubNote f) :=
                filter_map_comm st.notes (scrubNote f) _ (fun x => rfl)
              rw [hfil, map_formatNote_scrub]
              simp only [bind_apply, mBind, cacheSet, he, Bool.false_eq_true, if_false]
              rfl
      | none =>
          simp only [bind_apply, mBind, notesFindByOwner]
          have hfil : (scrubState f st).notes.filter (fun n => n.owner.id == uid)
              = (st.notes.filter (fun n => n.owner.id == uid)).map (scrubNote f) :=
            filter_map_comm st.notes (scrubNote f) _ (fun x => rfl)
          rw [hfil, map_formatNote_scrub]
          simp only [bind_apply, mBind, cacheSet, he, Bool.false_eq_true, if_false]
          rfl
    · rfl
  · simp only [if_true, bind_apply, mBind, notesFindAll]
    have hsc : (scrubState f st).notes = st.notes.map (scrubNote f) := rfl
    rw [hsc, map_formatNote_scrub]
    rfl

theorem findSharedWithUser_scrub (env : CacheEnv) (uid : Nat) (a : Bool) (f : Nat → String)
    (st : SysState) :
    findSharedWithUser env uid a (scrubState f st)
      = ((findSharedWithUser env uid a st).1,
         scrubState f (findSharedWithUser env uid a st).2.1,
         (findSharedWithUser env uid a st).2.2) := by
  unfold findSharedWithUser
  cases a
  · simp only [Bool.false_eq_true, if_false, bind_apply, mBind, cacheGet]
    cases he : env.failing
    · simp only [Bool.false_eq_true, if_false]
      have hc : lookupKey (scrubState f st).cache (CacheKey.shared uid)
          = lookupKey st.cache (CacheKey.shared uid) := rfl
      rw [hc]
      cases hl : lookupKey st.cache (CacheKey.shared uid) with
      | some v =>
          cases v with
          | list l => rfl
          | note n =>
              simp only [bind_apply, mBind, notesFindBySharee]
              have hfil : (scrubState f st).notes.filter
                    (fun n => n.sharedWith.any (fun u => u.id == uid))
                  = (st.notes.filter (fun n => n.sharedWith.any (fun u => u.id == uid))).map
                      (scrubNote f) :=
                filter_map_comm st.notes (scrubNote f) _
                  (fun x => any_map_comm x.sharedWith (scrubUser f) _ (fun y => rfl))
              rw [hfil, map_formatNote_scrub]
              simp only [bind_apply, mBind, cacheSet, he, Bool.false_eq_true, if_false]
              rfl
      | none =>
          simp only [bind_apply, mBind, notesFindBySharee]
          have hfil : (scrubState f st).notes.filter
                (fun n => n.sharedWith.any (fun u => u.id == uid))
              = (st.notes.filter (fun n => n.sharedWith.any (fun u => u.id == uid))).map
                  (scrubNote f) :=
            filter_map_comm st.notes (scrubNote f) _
              (fun x => any_map_comm x.sharedWith (scrubUser f) _ (fun y => rfl))
          rw [hfil, map_formatNote_scrub]
          simp only [bind_apply, mBind, cacheSet, he, Bool.false_eq_true, if_false]
          rfl
    · rfl
  · simp only [if_true, bind_apply, mBind, notesFindAll]
    have hsc : (scrubState f st).notes = st.notes.map (scrubNote f) := rfl
    rw [hsc, map_formatNote_scrub]
    rfl

theorem save_map_scrub (l : List Note) (x : Note) (f : Nat → String) :
    (l.map (scrubNote f)).map
        (fun m => if m.id == (scrubNote f x).id then scrubNote f x else m)
      = (l.map (fun m => if m.id == x.id then x else m)).map (scrubNote f) := by
  rw [List.map_map, List.map_map]
  apply List.map_congr_left
  intro m hm
  show (if ((scrubNote f m).id == (scrubNote f x).id) = true
      then scrubNote f x else scrubNote f m)
    = scrubNote f (if (m.id == x.id) = true then x else m)
  by_cases h : m.id = x.id
  · rw [if_pos (show ((scrubNote f m).id == (scrubNote f x).id) = true from by simpa using h),
      if_pos (by simpa using h)]
  · rw [if_neg (show ¬((scrubNote f m).id == (scrubNote f x).id) = true from by simpa using h),
      if_neg (by simpa using h)]

theorem tail3_scrub (env : CacheEnv) (i uid : Nat) (l : List FormattedUser)
    (fnS fnO : FormattedNote) (f : Nat → String) (sO sS : SysState)
    (hfn : fnS = fnO) (hs : sS = scrubState f sO) :
    ((cacheDel env (CacheKey.single i) >>= fun _ =>
      clearUserCache env uid >>= fun _ =>
      l.forM (fun user => clearUserCache env user.id) >>= fun _ =>
      pure fnS) sS)
      = (((cacheDel env (CacheKey.single i) >>= fun _ =>
          clearUserCache env uid >>= fun _ =>
          l.forM (fun user => clearUserCache env user.id) >>= fun _ =>
          pure fnO) sO).1,
         scrubState f ((cacheDel env (CacheKey.single i) >>= fun _ =>
          clearUserCache env uid >>= fun _ =>
          l.forM (fun user => clearUserCache env user.id) >>= fun _ =>
          pure fnO) sO).2.1,
         ((cacheDel env (CacheKey.single i) >>= fun _ =>
          clearUserCache env uid >>= fun _ =>
          l.forM (fun user => clearUserCache env user.id) >>= fun _ =>
          pure fnO) sO).2.2) := by
  subst hfn
  subst hs
  refine bind_scrub _ _ f sO (cacheDel_scrub env _ f sO) (fun _ s2 => ?_)
  refine bind_scrub _ _ f s2 (clearUserCache_scrub env _ f s2) (fun _ s3 => ?_)
  refine bind_scrub _ _ f s3 (forM_clear_scrub env _ f s3) (fun _ s4 => ?_)
  rfl

theorem update_scrub (env : CacheEnv) (i uid : Nat) (dto : CreateNoteDto) (a : Bool)
    (f : Nat → String) (st : SysState) :
    update env i uid dto a (scrubState f st)
      = ((update env i uid dto a st).1, scrubState f (update env i uid dto a st).2.1,
         (update env i uid dto a st).2.2) := by
  unfold update
  refine bind_scrub _ _ f st (findOne_scrub env i uid a f st) (fun note s1 => ?_)
  dsimp only
  split
  · rfl
  · rw [run_bind_ok _ _ _ _ _ _ (notesFindOneById_run i (scrubState f s1)),
      run_bind_ok _ _ _ _ _ _ (notesFindOneById_run i s1)]
    have hf : (scrubState f s1).notes.find? (fun m => m.id == i)
        = (s1.notes.find? (fun m => m.id == i)).map (scrubNote f) :=
      find?_map_comm s1.notes (scrubNote f) _ (fun x => rfl)
    rw [hf]
    cases hfind : s1.notes.find? (fun m => m.id == i) with
    | none => rfl
    | some existing =>
        simp only [Option.map]
        rw [run_bind_ok _ _ _ _ _ _ (getClock_run (scrubState f s1)),
          run_bind_ok _ _ _ _ _ _ (getClock_run s1)]
        dsimp only
        rw [run_bind_ok _ _ _ _ _ _ (notesSaveExisting_run
            { scrubNote f existing with title := dto.title, content := dto.content, updatedAt := (scrubState f s1).clock }
            (scrubState f s1)),
          run_bind_ok _ _ _ _ _ _ (notesSaveExisting_run
            { existing with title := dto.title, content := dto.content, updatedAt := s1.clock }
            s1)]
        dsimp only
        rw [tail3_scrub env i uid note.sharedWith
          (formatNote { scrubNote f existing with title := dto.title, content := dto.content, updatedAt := (scrubState f s1).clock })
          (formatNote { existing with title := dto.title, content := dto.content, updatedAt := s1.clock })
          f
          { s1 with notes := s1.notes.map (fun m => if m.id == ({ existing with title := dto.title, content := dto.content, updatedAt := s1.clock } : Note).id then { existing with title := dto.title, content := dto.content, updatedAt := s1.clock } else m) }
          _
          (by simp [formatNote, scrubNote, scrubUser, scrubState, List.map_map, Function.comp])
          (by simp only [scrubState]
              congr 1
              rw [List.map_map, List.map_map]
              apply List.map_congr_left
              intro m hm
              simp only [Function.comp, scrubNote, scrubUser]
              by_cases h : m.id = existing.id <;> simp [h])]

theorem notesRemove_run (i : Nat) (s : SysState) :
    notesRemove i s
      = (Except.ok (), { s with notes := s.notes.filter (fun n => n.id != i) }, []) := rfl

theorem remove_scrub (env : CacheEnv) (i uid : Nat) (a : Bool) (f : Nat → String)
    (st : SysState) :
    remove env i uid a (scrubState f st)
      = ((remove env i uid a st).1, scrubState f (remove env i uid a st).2.1,
         (remove env i uid a st).2.2) := by
  unfold remove
  refine bind_scrub _ _ f st (findOne_scrub env i uid a f st) (fun fn s1 => ?_)
  dsimp only
  split
  · rfl
  · refine bind_scrub _ _ f s1 (cacheDel_scrub env _ f s1) (fun _ s2 => ?_)
    refine bind_scrub _ _ f s2 (clearUserCache_scrub env _ f s2) (fun _ s3 => ?_)
    refine bind_scrub _ _ f s3 (forM_clear_scrub env _ f s3) (fun _ s4 => ?_)
    rw [run_bind_ok _ _ _ _ _ _ (notesFindOneById_run i (scrubState f s4)),
      run_bind_ok _ _ _ _ _ _ (notesFindOneById_run i s4)]
    have hf4 : (scrubState f s4).notes.find? (fun m => m.id == i)
        = (s4.notes.find? (fun m => m.id == i)).map (scrubNote f) :=
      find?_map_comm s4.notes (scrubNote f) _ (fun x => rfl)
    rw [hf4]
    cases hfind : s4.notes.find? (fun m => m.id == i) with
    | none => rfl
    | some ex =>
        simp only [Option.map]
        rw [run_bind_ok _ _ _ _ _ _ (notesRemove_run i (scrubState f s4)),
          run_bind_ok _ _ _ _ _ _ (notesRemove_run i s4)]
        have hstates : ({ scrubState f s4 with
              notes := (scrubState f s4).notes.filter (fun n => n.id != i) } : SysState)
            = scrubState f { s4 with notes := s4.notes.filter (fun n => n.id != i) } := by
          simp only [scrubState]
          congr 1
          exact filter_map_comm s4.notes (scrubNote f) _ (fun x => rfl)
        rw [hstates]
        rfl

theorem tail2_scrub (env : CacheEnv) (nid tid : Nat)
    (fnS fnO : FormattedNote) (f : Nat → String) (sO sS : SysState)
    (hfn : fnS = fnO) (hs : sS = scrubState f sO) :
    ((cacheDel env (CacheKey.single nid) >>= fun _ =>
      clearUserCache env tid >>= fun _ =>
      pure fnS) sS)
      = (((cacheDel env (CacheKey.single nid) >>= fun _ =>
          clearUserCache env tid >>= fun _ =>
          pure fnO) sO).1,
         scrubState f ((cacheDel env (CacheKey.single nid) >>= fun _ =>
          clearUserCache env tid >>= fun _ =>
          pure fnO) sO).2.1,
         ((cacheDel env (CacheKey.single nid) >>= fun _ =>
          clearUserCache env tid >>= fun _ =>
          pure fnO) sO).2.2) := by
  subst hfn
  subst hs
  refine bind_scrub _ _ f sO (cacheDel_scrub env _ f sO) (fun _ s2 => ?_)
  refine bind_scrub _ _ f s2 (clearUserCache_scrub env _ f s2) (fun _ s3 => ?_)
  rfl

theorem share_scrub (env : CacheEnv) (nid oid tid : Nat) (f : Nat → String) (st : SysState) :
    share env nid oid tid (scrubState f st)
      = ((share env nid oid tid st).1, scrubState f (share env nid oid tid st).2.1,
         (share env nid oid tid st).2.2) := by
  unfold share
  refine bind_scrub _ _ f st (findOne_scrub env nid oid false f st) (fun note s1 => ?_)
  dsimp only
  split
  · rfl
  · rw [run_bind_ok _ _ _ _ _ _ (notesFindOneById_run nid (scrubState f s1)),
      run_bind_ok _ _ _ _ _ _ (notesFindOneById_run nid s1)]
    have hf : (scrubState f s1).notes.find? (fun m => m.id == nid)
        = (s1.notes.find? (fun m => m.id == nid)).map (scrubNote f) :=
      find?_map_comm s1.notes (scrubNote f) _ (fun x => rfl)
    rw [hf]
    cases hfind : s1.notes.find? (fun m => m.id == nid) with
    | none => rfl
    | some ex =>
        simp only [Option.map]
        rw [run_bind_ok _ _ _ _ _ _ (usersFindOne_run tid (scrubState f s1)),
          run_bind_ok _ _ _ _ _ _ (usersFindOne_run tid s1)]
        have hu : (scrubState f s1).users.find? (fun u => u.id == tid)
            = (s1.users.find? (fun u => u.id == tid)).map (scrubUser f) :=
          find?_map_comm s1.users (scrubUser f) _ (fun x => rfl)
        rw [hu]
        cases htarget : s1.users.find? (fun u => u.id == tid) with
        | none => rfl
        | some tu =>
            simp only [Option.map]
            rw [run_bind_ok _ _ _ _ _ _ (notesSaveExisting_run
                { scrubNote f ex with sharedWith := (scrubNote f ex).sharedWith ++ [scrubUser f tu] }
                (scrubState f s1)),
              run_bind_ok _ _ _ _ _ _ (notesSaveExisting_run
                { ex with sharedWith := ex.sharedWith ++ [tu] }
                s1)]
            dsimp only
            rw [tail2_scrub env nid tid
              (formatNote { scrubNote f ex with sharedWith := (scrubNote f ex).sharedWith ++ [scrubUser f tu] })
              (formatNote { ex with sharedWith := ex.sharedWith ++ [tu] })
              f
              { s1 with notes := s1.notes.map (fun m => if m.id == ({ ex with sharedWith := ex.sharedWith ++ [tu] } : Note).id then { ex with sharedWith := ex.sharedWith ++ [tu] } else m) }
              _
              (by simp [formatNote, scrubNote, scrubUser, scrubState, List.map_map, List.map_append, Function.comp])
              (by simp only [scrubState]
                  congr 1
                  rw [List.map_map, List.map_map]
                  apply List.map_congr_left
                  intro m hm
                  simp only [Function.comp, scrubNote, scrubUser]
                  by_cases h : m.id = ex.id <;> simp [h, List.map_append, scrubNote, scrubUser])]


/-- C2 counterexample: carol is an admin and not the owner of the fixture
note, yet her share request is refused with Forbidden. -/
theorem C2_counterexample :
    carol.role = "admin" ∧ carol.id ≠ note1.owner.id ∧
    st0.notes.find? (fun m => m.id == 1) = some note1 ∧
    (share okEnv 1 carol.id dave.id st0).1 = Except.error (Err.forbidden "Access denied") :=
  ⟨rfl, by decide, rfl, rfl⟩

/-- C2 witness: the amended theorem applied to the fixture state. -/
theorem C2_witness :
    lookupKey st0.cache (CacheKey.single 1) = none ∧
    st0.notes.find? (fun m => m.id == 1) = some note1 ∧
    st0.users.find? (fun u => u.id == 4) = some dave ∧
    (share okEnv 1 3 4 st0).1 = Except.error (Err.forbidden "Access denied") :=
  ⟨rfl, rfl, rfl,
    (C2_role_checks_amended st0 1 3 4 note1 dave ⟨"T2", "C2"⟩ rfl rfl rfl (by decide)
      (by decide)).2.2.2.2.2.2.2⟩

/-- C3 counterexample: the admin carol successfully updates alice's note,
but alice's owned-list cache entry is never invalidated. -/
theorem C3_counterexample :
    carol.role = "admin" ∧ carol.id ≠ note1.owner.id ∧
    (update okEnv 1 carol.id ⟨"T2", "C2"⟩ true st0).1
      = Except.ok (formatNote
          { note1 with title := "T2", content := "C2", updatedAt := st0.clock }) ∧
    CacheEvent.del (CacheKey.user note1.owner.id)
      ∉ (update okEnv 1 carol.id ⟨"T2", "C2"⟩ true st0).2.2 :=
  ⟨rfl, by decide, rfl, by decide⟩

/-- C3 witness: the amended invalidation-order theorem applied to the
fixture state, with the admin carol as the acting user. -/
theorem C3_witness :
    lookupKey st0.cache (CacheKey.single 1) = none ∧
    (update okEnv 1 3 ⟨"T2", "C2"⟩ true st0).2.2.filter isDel
      = CacheEvent.del (CacheKey.single 1)
          :: (clearDels 3 ++ (formatNote note1).sharedWith.flatMap (fun u => clearDels u.id)) :=
  ⟨rfl, C3_update_invalidation_amended st0 1 3 true ⟨"T2", "C2"⟩ note1 rfl rfl (by decide)
    (by decide)⟩

/-- C4 counterexample: the note exists in the store and the actor is its
owner, yet a failing cache makes getOne fail with the cache error
instead of degrading to the store. -/
theorem C4_counterexample :
    (st0.notes.find? (fun m => m.id == 1)).isSome = true ∧
    (findOne ⟨true⟩ 1 1 false st0).1 = Except.error Err.cacheFailure :=
  ⟨rfl, rfl⟩

/-- C4 witness: the amended propagation theorem applied at a failing
cache client and the fixture state. -/
theorem C4_witness :
    (⟨true⟩ : CacheEnv).failing = true ∧
    (findOne ⟨true⟩ 1 2 false st0).1 = Except.error Err.cacheFailure ∧
    (findAllByUser ⟨true⟩ 2 false st0).1 = Except.error Err.cacheFailure :=
  ⟨rfl, (C4_cache_errors_amended ⟨true⟩ st0 1 2 ⟨"T", "C"⟩ rfl).1,
    (C4_cache_errors_amended ⟨true⟩ st0 1 2 ⟨"T", "C"⟩ rfl).2.1⟩

/-- C5 counterexample: alice shares her own note with herself; the call
succeeds and the persisted note's `sharedWith` now contains its owner. -/
theorem C5_counterexample :
    note1.owner.id = 1 ∧
    (share okEnv 1 1 1 st0).1
      = Except.ok (formatNote { note1 with sharedWith := note1.sharedWith ++ [alice] }) ∧
    ((share okEnv 1 1 1 st0).2.1.notes.any
      (fun m => m.sharedWith.any (fun u => u.id == m.owner.id))) = true :=
  ⟨rfl, rfl, by decide⟩

/-- C5 witness: the amended self-share theorem applied to the fixture
state. -/
theorem C5_witness :
    st0.users.find? (fun u => u.id == 1) = some alice ∧
    (share okEnv 1 1 1 st0).1
      = Except.ok (formatNote { note1 with sharedWith := note1.sharedWith ++ [alice] }) ∧
    (note1.sharedWith ++ [alice]).any (fun u => u.id == note1.owner.id) = true :=
  ⟨rfl, (C5_self_share_amended st0 1 1 note1 alice rfl rfl rfl rfl).1,
    (C5_self_share_amended st0 1 1 note1 alice rfl rfl rfl rfl).2.1⟩

/-- C6 counterexample: bob is already a sharee of the fixture note;
sharing with him again succeeds and the persisted note then holds bob
twice. -/
theorem C6_counterexample :
    bob ∈ note1.sharedWith ∧
    (share okEnv 1 1 2 st0).1
      = Except.ok (formatNote { note1 with sharedWith := note1.sharedWith ++ [bob] }) ∧
    ((share okEnv 1 1 2 st0).2.1.notes.map
      (fun m => m.sharedWith.countP (fun u => u.id == 2))) = [2] :=
  ⟨by decide, rfl, by decide⟩

/-- C6 witness: the amended duplicate-share theorem applied to the
fixture state. -/
theorem C6_witness :
    bob ∈ note1.sharedWith ∧
    (share okEnv 1 1 2 st0).1
      = Except.ok (formatNote { note1 with sharedWith := note1.sharedWith ++ [bob] }) ∧
    2 ≤ (note1.sharedWith ++ [bob]).countP (fun u => u.id == bob.id) :=
  ⟨by decide, (C6_duplicate_share_amended st0 1 1 2 note1 bob rfl rfl rfl rfl (by decide)).1,
    (C6_duplicate_share_amended st0 1 1 2 note1 bob rfl rfl rfl rfl (by decide)).2⟩

/-- C8 witness: sharing the fixture note with dave succeeds and leaves
the note's timestamps unchanged. -/
theorem C8_witness :
    st0.users.find? (fun u => u.id == 4) = some dave ∧
    (share okEnv 1 1 4 st0).1
      = Except.ok (formatNote { note1 with sharedWith := note1.sharedWith ++ [dave] }) ∧
    (formatNote { note1 with sharedWith := note1.sharedWith ++ [dave] }).updatedAt
      = note1.updatedAt :=
  ⟨rfl, (C8_updatedAt_share_frame st0 1 1 4 note1 dave rfl rfl rfl rfl).2.1,
    (C8_updatedAt_share_frame st0 1 1 4 note1 dave rfl rfl rfl rfl).2.2.1⟩

/-! ### C9 -/

/-- C9: every cache entry written by the service — the single-note entry
in getOne, the owned-list entry in listOwned, the shared-list entry in
listShared — is set with a ttl of exactly 3600 seconds (3600000
milliseconds), over every operation, state and cache client. -/
theorem C9_ttl_3600s :
    (∀ env uid dto st, ttlOk (create env uid dto st).2.2) ∧
    (∀ env uid a st, ttlOk (findAllByUser env uid a st).2.2) ∧
    (∀ env uid a st, ttlOk (findSharedWithUser env uid a st).2.2) ∧
    (∀ env i uid a st, ttlOk (findOne env i uid a st).2.2) ∧
    (∀ env i uid dto a st, ttlOk (update env i uid dto a st).2.2) ∧
    (∀ env i uid a st, ttlOk (remove env i uid a st).2.2) ∧
    (∀ env nid oid tid st, ttlOk (share env nid oid tid st).2.2) :=
  ⟨fun env uid dto st => ttlOk_create env uid dto st,
   fun env uid a st => ttlOk_findAllByUser env uid a st,
   fun env uid a st => ttlOk_findSharedWithUser env uid a st,
   fun env i uid a st => ttlOk_findOne env i uid a st,
   fun env i uid dto a st => ttlOk_update env i uid dto a st,
   fun env i uid a st => ttlOk_remove env i uid a st,
   fun env nid oid tid st => ttlOk_share env nid oid tid st⟩

/-! ### C10 -/

/-- C10: formatted notes expose only id, email, username and role of the
owner and of each sharee (the `FormattedUser` shape carries no password
field), and the value returned by every public operation is unchanged
when every stored password is replaced arbitrarily — the outputs are
independent of the password field of every user involved. -/
theorem C10_password_independence :
    (∀ (f : Nat → String) (n : Note), formatNote (scrubNote f n) = formatNote n) ∧
    (∀ env uid dto f st, (create env uid dto (scrubState f st)).1 = (create env uid dto st).1) ∧
    (∀ env uid a f st,
      (findAllByUser env uid a (scrubState f st)).1 = (findAllByUser env uid a st).1) ∧
    (∀ env uid a f st,
      (findSharedWithUser env uid a (scrubState f st)).1
        = (findSharedWithUser env uid a st).1) ∧
    (∀ env i uid a f st, (findOne env i uid a (scrubState f st)).1 = (findOne env i uid a st).1) ∧
    (∀ env i uid dto a f st,
      (update env i uid dto a (scrubState f st)).1 = (update env i uid dto a st).1) ∧
    (∀ env i uid a f st, (remove env i uid a (scrubState f st)).1 = (remove env i uid a st).1) ∧
    (∀ env nid oid tid f st,
      (share env nid oid tid (scrubState f st)).1 = (share env nid oid tid st).1) :=
  ⟨fun f n => formatNote_scrub f n,
   fun env uid dto f st => by rw [create_scrub],
   fun env uid a f st => by rw [findAllByUser_scrub],
   fun env uid a f st => by rw [findSharedWithUser_scrub],
   fun env i uid a f st => by rw [findOne_scrub],
   fun env i uid dto a f st => by rw [update_scrub],
   fun env i uid a f st => by rw [remove_scrub],
   fun env nid oid tid f st => by rw [share_scrub]⟩


end NotesBE
